import Mathlib

/-!
Shallow embedding of the AnimeAnalyst core (src/anime_analyst/core/):
the merge engine (merge.py), the three scoring engines (scoring.py) and the
row filter (filter.py), together with theorems settling the frozen claims.

Modelling conventions:
* A Python dict field is a `Val`: `Val.none` covers both an absent key and an
  explicit `None` (the two are indistinguishable for every code path the
  claims touch: `r.get(k)` returns `None` for both, and the one place that
  subscripts `r["score"]` directly does so inside a `try` whose handler
  excludes the row exactly as a `None` score does); `Val.empty` is the empty
  string `""`; `Val.malformed` is a non-empty string that `float`/`int`
  reject (hence truthy); `Val.num q` is a Python number, modelled as the
  exact rational it denotes.  Python float arithmetic is modelled as exact
  real/rational arithmetic, the standard idealisation.
* Code that can raise (`int(...)`/`float(...)` on a malformed value) is
  embedded in `Except Unit`; code whose exceptions are caught and turned
  into row exclusion is embedded as a total function returning `Option`.
* Real division is mathlib's total division (`x / 0 = 0`); the one code path
  where Python would instead raise `ZeroDivisionError` (a weight sum of
  exactly zero) is noted at the theorem that exercises it.
-/

namespace AnimeAnalyst

/-- Value of one field of a row dict: absent/None, empty string, a non-empty
unparsable string, or a number (exact rational). -/
inductive Val where
  | none
  | empty
  | malformed
  | num (q : ℚ)
deriving DecidableEq

/-- Python truthiness of a `Val`: `None`, `""` and the number 0 are falsy;
a non-empty string and any non-zero number are truthy. -/
def Val.truthy : Val → Bool
  | Val.none => false
  | Val.empty => false
  | Val.malformed => true
  | Val.num q => decide (q ≠ 0)

/-- Python `int()` truncation toward zero of a number. -/
def pytrunc (q : ℚ) : ℤ := q.num.tdiv q.den

/-- Python `round()` on a number: nearest integer, ties to the even one. -/
def pyRound (q : ℚ) : ℤ :=
  if q - (Rat.floor q : ℤ) < 1/2 then Rat.floor q
  else if (1 : ℚ)/2 < q - (Rat.floor q : ℤ) then Rat.floor q + 1
  else if Rat.floor q % 2 = 0 then Rat.floor q else Rat.floor q + 1

/-- One anime row: the dict keys produced by the two flatteners and by
`merge_mal_anilist`, plus the two derived consensus fields. -/
structure Row where
  mal_id : Val := Val.none
  title : Option String := Option.none
  title_english : Option String := Option.none
  type : Option String := Option.none
  status : Option String := Option.none
  year : Val := Val.none
  episodes : Val := Val.none
  duration : Val := Val.none
  score : Val := Val.none
  scored_by : Val := Val.none
  rank : Val := Val.none
  popularity : Val := Val.none
  members : Val := Val.none
  favorites : Val := Val.none
  studios : Option String := Option.none
  genres : Option String := Option.none
  url : Option String := Option.none
  anilist_id : Val := Val.none
  title_romaji : Option String := Option.none
  score_anilist : Val := Val.none
  popularity_anilist : Val := Val.none
  favourites_anilist : Val := Val.none
  url_anilist : Option String := Option.none
  consensus_score : Option ℝ := Option.none
  consensus_votes : Option ℤ := Option.none

/-- scoring.py lines 10-17 (and the identical lines 61-69): the per-row
score/vote extraction of `compute_bayesian_scores` and
`compute_recommendation_scores`.  `some (s, nb)` iff the row is kept:
`float(r["score"])` parses (a missing/None/empty score gives `s = None`, an
unparsable one raises into the handler, both excluding the row),
`int(r.get("scored_by") or 0)` parses (an unparsable value raises into the
handler, zeroing the row out), and the vote count is strictly positive. -/
def svOf (r : Row) : Option (ℚ × ℤ) :=
  match r.score, r.scored_by with
  | Val.num s, Val.num q => if 0 < pytrunc q then some (s, pytrunc q) else Option.none
  | _, _ => Option.none

/-- The eligible rows with their parsed (score, vote count), in input order
(the `vals` list of scoring.py lines 9-17 / 59-69). -/
def eligPairs (rows : List Row) : List (Row × ℚ × ℤ) :=
  rows.filterMap fun r => (svOf r).map fun p => (r, p)

/-- `tot` of scoring.py line 19 / 72. -/
def totVotes (vals : List (Row × ℚ × ℤ)) : ℚ :=
  (vals.map fun t => ((t.2.2 : ℤ) : ℚ)).sum

/-- `C` of scoring.py line 20 / 73: the vote-weighted mean score. -/
def centerOf (vals : List (Row × ℚ × ℤ)) : ℚ :=
  (vals.map fun t => t.2.1 * ((t.2.2 : ℤ) : ℚ)).sum / totVotes vals

/-- `sorted(votes)[len(votes)//2]`: the upper-middle element of the sorted
vote counts (scoring.py line 21 / 74 / 119). -/
def upperMid (votes : List ℤ) : ℤ :=
  (List.insertionSort (· ≤ ·) votes).getD (votes.length / 2) 0

/-- `m` of scoring.py line 21 / 74: the caller's prior weight if supplied,
otherwise `max(1000, sorted(votes)[len(votes)//2])`. -/
def priorOf (votes : List ℤ) : Option ℚ → ℚ
  | some p => p
  | Option.none => ((max 1000 (upperMid votes) : ℤ) : ℚ)

/-- scoring.py lines 5-6: the shrinkage primitive `bayesian_score`. -/
def bayesian_score (avg n C m : ℚ) : ℚ :=
  (n / (n + m)) * avg + (m / (n + m)) * C

/-- scoring.py lines 8-22: `compute_bayesian_scores`. -/
def compute_bayesian_scores (rows : List Row) (prior : Option ℚ) : List (Row × ℚ) :=
  let vals := eligPairs rows
  if vals.isEmpty then []
  else
    let C := centerOf vals
    let m := priorOf (vals.map fun t => t.2.2) prior
    vals.map fun t => (t.1, bayesian_score t.2.1 ((t.2.2 : ℤ) : ℚ) C m)

/-! ## Recommendation engine (scoring.py lines 24-94) -/

/-- scoring.py lines 33-40: `_extract_year`.  `None`/`""` and unparsable
values (caught `int`) give `None`. -/
def extract_year (r : Row) : Option ℤ :=
  match r.year with
  | Val.num q => some (pytrunc q)
  | _ => Option.none

/-- scoring.py lines 42-51: `_extract_popularity`.  The keys `members`,
`popularity`, `scored_by` are tried in order; `None`/`""` values are skipped
and unparsable values are skipped by the caught `float`; the fallback is 0. -/
def extract_popularity (r : Row) : ℚ :=
  match r.members with
  | Val.num q => q
  | _ =>
    match r.popularity with
    | Val.num q => q
    | _ =>
      match r.scored_by with
      | Val.num q => q
      | _ => 0

/-- Python `math.isclose` with its default `rel_tol=1e-9`, `abs_tol=0.0`,
on rationals. -/
def iscloseQ (a b : ℚ) : Bool :=
  decide (|a - b| ≤ (1/1000000000) * max |a| |b|)

/-- Python `math.isclose` with its default tolerances, on reals. -/
def iscloseR (a b : ℝ) : Prop :=
  |a - b| ≤ (1/1000000000) * max |a| |b|

open Classical in
/-- scoring.py lines 24-31: `_norm_range`, min-max normalisation with the
`math.isclose` degenerate guard (`lo = min(vals)`, `hi = max(vals)`). -/
noncomputable def norm_range (vals : List ℝ) : List ℝ :=
  if vals.isEmpty then []
  else if iscloseR ((vals.min?).getD 0) ((vals.max?).getD 0) then vals.map fun _ => 0
  else vals.map fun v =>
    (v - (vals.min?).getD 0) / ((vals.max?).getD 0 - (vals.min?).getD 0)

/-- The parseable years, as the floats `year_vals` of scoring.py line 80. -/
def parsedYears (years : List (Option ℤ)) : List ℚ :=
  (years.filterMap id).map fun y => ((y : ℤ) : ℚ)

/-- scoring.py lines 79-88: the recency boost list, from the per-row
`_extract_year` results; rows without a year get 0 and the min/max are
taken over the parseable years only. -/
def recencyNorm (years : List (Option ℤ)) : List ℚ :=
  match (parsedYears years).min?, (parsedYears years).max? with
  | some lo, some hi =>
      years.map fun y =>
        match y with
        | Option.none => 0
        | some yy => if iscloseQ lo hi then 0 else (((yy : ℤ) : ℚ) - lo) / (hi - lo)
  | _, _ => years.map fun _ => 0

/-- Python `zip` over four lists (they all have equal length at the use
site; `zip` truncates to the shortest). -/
def zipWith4 {α β γ δ ε : Type _} (f : α → β → γ → δ → ε) :
    List α → List β → List γ → List δ → List ε
  | a :: as, b :: bs, c :: cs, d :: ds => f a b c d :: zipWith4 f as bs cs ds
  | _, _, _, _ => []

/-- scoring.py line 75: the plain shrunk scores of the eligible rows. -/
def baseScoresOf (vals : List (Row × ℚ × ℤ)) (prior : Option ℚ) : List ℚ :=
  vals.map fun t =>
    bayesian_score t.2.1 ((t.2.2 : ℤ) : ℚ) (centerOf vals)
      (priorOf (vals.map fun u => u.2.2) prior)

/-- `math.log10`. -/
noncomputable def log10 (x : ℝ) : ℝ := Real.logb 10 x

/-- scoring.py line 76: `log10(1.0 + _extract_popularity(r))` per eligible row. -/
noncomputable def popLogs (vals : List (Row × ℚ × ℤ)) : List ℝ :=
  vals.map fun t => log10 (1 + ((extract_popularity t.1 : ℚ) : ℝ))

/-- scoring.py lines 53-94: `compute_recommendation_scores`. -/
noncomputable def compute_recommendation_scores (rows : List Row) (prior : Option ℚ)
    (pop_weight recency_weight : ℚ) : List (Row × ℝ) :=
  let vals := eligPairs rows
  if vals.isEmpty then []
  else
    zipWith4
      (fun t (b : ℚ) (p : ℝ) (rc : ℚ) =>
        (t.1, ((b : ℚ) : ℝ) + (((pop_weight : ℚ) : ℝ) * p + ((recency_weight : ℚ) : ℝ) * ((rc : ℚ) : ℝ))))
      vals (baseScoresOf vals prior) (norm_range (popLogs vals))
      (recencyNorm (vals.map fun t => extract_year t.1))

/-! ## Filter (filter.py) -/

/-- `r.get(key, "")` / `(s or "")` for string-valued fields. -/
def pyStr (o : Option String) : String := o.getD ""

/-- Truthiness of an optional string parameter (`if type_ and ...`). -/
def optStrTruthy : Option String → Bool
  | some s => decide (s ≠ "")
  | Option.none => false

/-- Truthiness of an optional integer parameter (`if year_from and ...`). -/
def optIntTruthy : Option ℤ → Bool
  | some n => decide (n ≠ 0)
  | Option.none => false

/-- Truthiness of an optional list parameter (`if include_any_genres and ...`). -/
def optListTruthy : Option (List String) → Bool
  | some l => !l.isEmpty
  | Option.none => false

/-- filter.py line 10: `toks` — split the genres string on commas, strip and
lower-case each token; an empty/absent string gives no tokens. -/
def toks : Option String → List String
  | Option.none => []
  | some s => if s = "" then [] else (s.splitOn ",").map fun t => t.trim.toLower

/-- filter.py lines 26-27 (and scoring.py line 102): caught
`int(r.get("scored_by") or 0)`. -/
def nMal (r : Row) : ℤ :=
  match r.scored_by with
  | Val.num q => pytrunc q
  | _ => 0

/-- filter.py lines 21-24: caught score parse, `None` on absent/empty/unparsable. -/
def scoreOf (r : Row) : Option ℚ :=
  match r.score with
  | Val.num q => some q
  | _ => Option.none

/-- The caller-supplied filter parameters of `filter_rows`. -/
structure FilterArgs where
  type_q : Option String := Option.none
  status_q : Option String := Option.none
  year_from : Option ℤ := Option.none
  year_to : Option ℤ := Option.none
  min_score : Option ℚ := Option.none
  min_scored_by : Option ℤ := Option.none
  include_any_genres : Option (List String) := Option.none
  include_all_genres : Option (List String) := Option.none

/-- filter.py lines 12-32: the per-row predicate (`continue` = reject). -/
def filterPred (a : FilterArgs) (r : Row) : Bool :=
  (!(optStrTruthy a.type_q) || ((pyStr r.type).toLower == (pyStr a.type_q).toLower)) &&
  (!(optStrTruthy a.status_q) || ((pyStr r.status).toLower == (pyStr a.status_q).toLower)) &&
  (!(optIntTruthy a.year_from) ||
    (match extract_year r with
     | some y => decide (a.year_from.getD 0 ≤ y)
     | Option.none => false)) &&
  (!(optIntTruthy a.year_to) ||
    (match extract_year r with
     | some y => decide (y ≤ a.year_to.getD 0)
     | Option.none => false)) &&
  (match a.min_score with
   | Option.none => true
   | some ms =>
     match scoreOf r with
     | some sc => decide (ms ≤ sc)
     | Option.none => false) &&
  (match a.min_scored_by with
   | Option.none => true
   | some msb => decide (msb ≤ nMal r)) &&
  (!(optListTruthy a.include_any_genres) ||
    (a.include_any_genres.getD []).any fun g => (toks r.genres).contains g.toLower) &&
  (!(optListTruthy a.include_all_genres) ||
    (a.include_all_genres.getD []).all fun g => (toks r.genres).contains g.toLower)

/-- filter.py lines 4-33: `filter_rows` keeps the passing rows themselves,
in order. -/
def filter_rows (a : FilterArgs) (rows : List Row) : List Row :=
  rows.filter (filterPred a)

/-! ## Merge (merge.py) -/

/-- merge.py lines 5-6: `_norm_title` — lower-case, keep only `[a-z0-9]`. -/
def normTitle (s : String) : String :=
  String.mk ((s.toLower.toList).filter fun c =>
    decide (('a' ≤ c ∧ c ≤ 'z') ∨ ('0' ≤ c ∧ c ≤ '9')))

/-- The `(normalized title, year)` identity key of merge.py lines 23 and 26. -/
def rowKey (r : Row) : String × Val := (normTitle (pyStr r.title), r.year)

/-- Truthiness test plus `int()` conversion of a `mal_id` field: `None` when
falsy, the truncated integer when numeric, an exception when a truthy
unparsable string. -/
def keyOfVal (v : Val) : Except Unit (Option ℤ) :=
  if v.truthy then
    match v with
    | Val.num q => Except.ok (some (pytrunc q))
    | _ => Except.error ()
  else Except.ok Option.none

/-- merge.py lines 9-11: index the secondary rows by `int(mal_id)`;
a later row with the same id overwrites an earlier one, so the entries of
later rows are placed in front and `lookupIdx` takes the first match. -/
def buildIdx : List Row → Except Unit (List (ℤ × Row))
  | [] => Except.ok []
  | a :: rest =>
    match buildIdx rest, keyOfVal a.mal_id with
    | Except.ok tl, Except.ok Option.none => Except.ok tl
    | Except.ok tl, Except.ok (some k) => Except.ok (tl ++ [(k, a)])
    | _, _ => Except.error ()

/-- Lookup in the index built by `buildIdx` (first match = last writer). -/
def lookupIdx (idx : List (ℤ × Row)) (k : ℤ) : Option Row :=
  (idx.find? fun e => e.1 == k).map fun e => e.2

/-- merge.py lines 20-21: copy the six secondary-only fields onto (a copy
of) the primary row. -/
def enrich (m a : Row) : Row :=
  { m with anilist_id := a.anilist_id, title_romaji := a.title_romaji,
           score_anilist := a.score_anilist, popularity_anilist := a.popularity_anilist,
           favourites_anilist := a.favourites_anilist, url_anilist := a.url_anilist }

/-- merge.py lines 14-22, one primary row: emit the (possibly enriched) row
and the `anilist_id`s added to `used_ani`. -/
def stepRow (idx : List (ℤ × Row)) (m : Row) : Except Unit (Row × List Val) :=
  match keyOfVal m.mal_id with
  | Except.error _ => Except.error ()
  | Except.ok Option.none => Except.ok (m, [])
  | Except.ok (some k) =>
    match lookupIdx idx k with
    | Option.none => Except.ok (m, [])
    | some a => Except.ok (enrich m a, [a.anilist_id])

/-- merge.py lines 14-22: the primary pass. -/
def phase1 (idx : List (ℤ × Row)) : List Row → Except Unit (List Row × List Val)
  | [] => Except.ok ([], [])
  | m :: ms =>
    match stepRow idx m, phase1 idx ms with
    | Except.ok (r, u), Except.ok (rs, us) => Except.ok (r :: rs, u ++ us)
    | _, _ => Except.error ()

/-- merge.py lines 28-45: the row appended for an unconsumed secondary row. -/
def mkFromAni (a : Row) : Row :=
  { mal_id := a.mal_id, title := a.title, title_english := some "",
    type := a.type, status := a.status, year := a.year,
    episodes := a.episodes, duration := a.duration,
    score := Val.none, scored_by := Val.num 0, rank := Val.none,
    popularity := Val.none, members := Val.none, favorites := Val.none,
    studios := some "", genres := some "", url := some "",
    anilist_id := a.anilist_id, title_romaji := a.title_romaji,
    score_anilist := a.score_anilist, popularity_anilist := a.popularity_anilist,
    favourites_anilist := a.favourites_anilist, url_anilist := a.url_anilist }

/-- merge.py lines 24-45: the secondary pass.  `seen` is computed once from
the primary pass and never extended; `used` is the `used_ani` set. -/
def phase2 (used : List Val) (seen : List (String × Val)) : List Row → List Row
  | [] => []
  | a :: rest =>
      if a.anilist_id ∈ used then phase2 used seen rest
      else if rowKey a ∈ seen then phase2 used seen rest
      else mkFromAni a :: phase2 used seen rest

/-- merge.py lines 8-46: `merge_mal_anilist`. -/
def merge_mal_anilist (mal_rows ani_rows : List Row) : Except Unit (List Row) :=
  match buildIdx ani_rows with
  | Except.error _ => Except.error ()
  | Except.ok idx =>
    match phase1 idx mal_rows with
    | Except.error _ => Except.error ()
    | Except.ok (merged, used) =>
      Except.ok (merged ++ phase2 used (merged.map rowKey) ani_rows)

/-! ## Consensus engine (scoring.py lines 96-121) -/

/-- scoring.py line 99: `w = lambda n: math.log10(1.0 + max(0.0, n))`. -/
noncomputable def pseudoW (n : ℚ) : ℝ := log10 (1 + max 0 ((n : ℚ) : ℝ))

/-- scoring.py line 101: the uncaught primary-score parse — unparsable
raises out of the function. -/
def sMal (r : Row) : Except Unit (Option ℚ) :=
  match r.score with
  | Val.num q => Except.ok (some q)
  | Val.malformed => Except.error ()
  | _ => Except.ok Option.none

/-- scoring.py line 105: the uncaught `float(r.get("popularity_anilist") or 0)`. -/
def popAni (r : Row) : Except Unit ℚ :=
  match r.popularity_anilist with
  | Val.num q => Except.ok q
  | Val.malformed => Except.error ()
  | _ => Except.ok 0

/-- `{r with the two derived consensus fields set}` (scoring.py line 111). -/
def writeCons (r : Row) (s : ℝ) (n : ℚ) : Row :=
  { r with consensus_score := some s, consensus_votes := some (pyRound n) }

/-- scoring.py line 108: the secondary `(part, weight)` contribution when
`s_ani is not None and n_ani > 0` — and the raise of the uncaught
`float(s_ani)` when that guard passes on a non-numeric score. -/
noncomputable def aniPart (sa : Val) (na : ℚ) : Except Unit (List (ℝ × ℝ)) :=
  if sa ≠ Val.none ∧ 0 < na then
    match sa with
    | Val.num q => Except.ok [(((q : ℚ) : ℝ), pseudoW na)]
    | _ => Except.error ()
  else Except.ok []

/-- scoring.py line 107: the primary `(part, weight)` contribution when
`s_mal is not None and n_mal > 0`. -/
noncomputable def malPart (sm : Option ℚ) (nm : ℤ) : List (ℝ × ℝ) :=
  match sm with
  | some q => if 0 < nm then [(((q : ℚ) : ℝ), pseudoW ((nm : ℤ) : ℚ))] else []
  | Option.none => []

/-- The `parts`/`weights` pair list of scoring.py lines 106-108 (primary
contribution followed by the secondary one). -/
noncomputable def partsOf (sm : Option ℚ) (nm : ℤ) (pw2 : List (ℝ × ℝ)) : List (ℝ × ℝ) :=
  malPart sm nm ++ pw2

/-- scoring.py line 110: the blended score
`sum(p*wt for p, wt in zip(parts, weights)) / sum(weights)`. -/
noncomputable def blendS (parts : List (ℝ × ℝ)) : ℝ :=
  (parts.map fun p => p.1 * p.2).sum / (parts.map Prod.snd).sum

open Classical in
/-- scoring.py lines 106-115: build parts/weights and either blend (writing
the two derived fields), fall back to a bare score with floor weight 1, or
exclude the row (`Except.ok Option.none`). -/
noncomputable def blendRow (r : Row) (sm : Option ℚ) (nm : ℤ) (na : ℚ)
    (pw2 : List (ℝ × ℝ)) : Except Unit (Option (Row × ℝ × ℚ)) :=
  if partsOf sm nm pw2 ≠ [] ∧ 0 < ((partsOf sm nm pw2).map Prod.snd).sum then
    Except.ok (some (writeCons r (blendS (partsOf sm nm pw2)) (((nm : ℤ) : ℚ) + na),
      blendS (partsOf sm nm pw2), ((nm : ℤ) : ℚ) + na))
  else
    match sm with
    | some q => Except.ok (some (r, ((q : ℚ) : ℝ), max 1 ((nm : ℤ) : ℚ)))
    | Option.none =>
      match r.score_anilist with
      | Val.none => Except.ok Option.none
      | Val.num q => Except.ok (some (r, ((q : ℚ) : ℝ), max 1 na))
      | _ => Except.error ()

/-- scoring.py lines 100-115: the per-row body of the consensus loop.
`Except.ok Option.none` = row excluded, `Except.ok (some (r, s, n))` = the
appended `recs` entry (`r` carries the two derived fields when written). -/
noncomputable def rowConsensus (α : ℚ) (r : Row) : Except Unit (Option (Row × ℝ × ℚ)) :=
  match sMal r, popAni r with
  | Except.ok sm, Except.ok pop =>
    match aniPart r.score_anilist (α * pop) with
    | Except.ok pw2 => blendRow r sm (nMal r) (α * pop) pw2
    | Except.error _ => Except.error ()
  | _, _ => Except.error ()

/-- The consensus loop over all rows, collecting the `recs` list; any raise
aborts the whole call. -/
noncomputable def collectRecs (α : ℚ) : List Row → Except Unit (List (Row × ℝ × ℚ))
  | [] => Except.ok []
  | r :: rs =>
    match rowConsensus α r, collectRecs α rs with
    | Except.ok (some t), Except.ok rest => Except.ok (t :: rest)
    | Except.ok Option.none, Except.ok rest => Except.ok rest
    | _, _ => Except.error ()

/-- The shrinkage primitive applied over the reals (the consensus engine
feeds it float scores and pseudo-vote totals). -/
noncomputable def bayesian_scoreR (avg n C m : ℝ) : ℝ :=
  (n / (n + m)) * avg + (m / (n + m)) * C

/-- scoring.py lines 117-118: the dataset-wide weighted center `C` of the
consensus records. -/
noncomputable def consensusC (recs : List (Row × ℝ × ℚ)) : ℝ :=
  ((recs.map fun t => t.2.1 * ((t.2.2 : ℚ) : ℝ)).sum) /
    (((recs.map fun t => t.2.2).sum : ℚ) : ℝ)

/-- scoring.py line 119: `ns = sorted(int(n) for *_, n in recs)`. -/
def consensusNs (recs : List (Row × ℝ × ℚ)) : List ℤ :=
  List.insertionSort (· ≤ ·) (recs.map fun t => pytrunc t.2.2)

/-- scoring.py line 120: explicit prior weight, or
`max(1000.0, float(ns[len(ns)//2]))`. -/
noncomputable def consensusM (recs : List (Row × ℝ × ℚ)) : Option ℚ → ℝ
  | some p => ((p : ℚ) : ℝ)
  | Option.none => max 1000 ((consensusNs recs).getD ((consensusNs recs).length / 2) 0 : ℤ)

/-- scoring.py line 121: shrink every record toward the dataset-wide center. -/
noncomputable def consensusFinish (recs : List (Row × ℝ × ℚ)) (prior : Option ℚ) :
    List (Row × ℝ) :=
  recs.map fun t =>
    (t.1, bayesian_scoreR t.2.1 ((t.2.2 : ℚ) : ℝ) (consensusC recs) (consensusM recs prior))

/-- scoring.py lines 96-121: `compute_consensus_bayesian` — collect the
per-row records, return `[]` when none, otherwise compute the dataset-wide
center and prior and shrink every record. -/
noncomputable def compute_consensus_bayesian (merged_rows : List Row) (prior : Option ℚ)
    (α : ℚ) : Except Unit (List (Row × ℝ)) :=
  match collectRecs α merged_rows with
  | Except.error _ => Except.error ()
  | Except.ok recs =>
    if recs.isEmpty then Except.ok [] else Except.ok (consensusFinish recs prior)

/-- A row with its two derived consensus fields cleared (for frame-effect
statements: which fields the consensus engine may touch). -/
def stripCons (r : Row) : Row :=
  { r with consensus_score := Option.none, consensus_votes := Option.none }

/-- The primary source contributes a usable `(score, weight>0)` pair
(scoring.py line 107 guard). -/
def malUsableB (r : Row) : Bool :=
  (match r.score with | Val.num _ => true | _ => false) && decide (0 < nMal r)

/-- The secondary source contributes a usable `(score, weight>0)` pair
(scoring.py line 108 guard, on rows on which no parse raises). -/
def aniUsableB (α : ℚ) (r : Row) : Bool :=
  (match r.score_anilist with | Val.num _ => true | _ => false) &&
  (match r.popularity_anilist with | Val.num q => decide (0 < α * q) | _ => false)

/-- A row the consensus loop keeps (reaches `recs`) rather than excludes,
on rows on which no parse raises: some source has a parsable score. -/
def consensusKept (r : Row) : Bool :=
  match r.score, r.score_anilist with
  | Val.num _, _ => true
  | _, Val.num _ => true
  | _, _ => false

/-! ## Definitions used to state the claims -/

/-- The vote counts of the eligible rows (the `votes` list of scoring.py
lines 9-17). -/
def eligVotes (rows : List Row) : List ℤ :=
  (eligPairs rows).map fun t => t.2.2

/-- The statistical median of a multiset of vote counts, following the
claim's words (mean of the two middle elements for even sizes).  This is a
refinement-comparison definition, not code of the repository. -/
def statMedian (l : List ℤ) : ℚ :=
  let s := List.insertionSort (· ≤ ·) l
  if l.length % 2 = 1 then ((s.getD (l.length / 2) 0 : ℤ) : ℚ)
  else (((s.getD (l.length / 2 - 1) 0 : ℤ) : ℚ) + ((s.getD (l.length / 2) 0 : ℤ) : ℚ)) / 2

/-- First numeric value in a list of field values, if any. -/
def firstNumVal : List Val → Option ℚ
  | [] => Option.none
  | v :: vs =>
    match v with
    | Val.num q => some q
    | _ => firstNumVal vs

/-- The popularity resolver described by claim C6's words: a primary
popularity metric (`members`), then the *secondary source's* popularity
metric (`popularity_anilist`), then the vote count.  This is a
refinement-comparison definition, not code of the repository. -/
def claimPopResolver (r : Row) : ℚ :=
  (firstNumVal [r.members, r.popularity_anilist, r.scored_by]).getD 0

/-- A row with every field absent. -/
def defaultRow : Row := {}

/-- A merged row carrying only a usable primary pair (score 8, 500 votes). -/
def rowMalOnly : Row := { score := Val.num 8, scored_by := Val.num 500 }

/-- The merged row of the spec's consensus scenario: primary (score 8,
500 votes), secondary (score 9, popularity 1000). -/
def rowBoth : Row :=
  { score := Val.num 8, scored_by := Val.num 500,
    score_anilist := Val.num 9, popularity_anilist := Val.num 1000 }

/-- A merged row with no members count, primary popularity rank 50 and
secondary popularity index 999. -/
def rowPopRank : Row :=
  { popularity := Val.num 50, popularity_anilist := Val.num 999,
    score := Val.num 7, scored_by := Val.num 10 }

/-- The consensus blend of the spec scenario as the code computes it:
log-compressed weights on *both* sources. -/
noncomputable def scenarioS : ℝ :=
  (8 * pseudoW 500 + 9 * pseudoW 300) / (pseudoW 500 + pseudoW 300)

/-- A secondary row with no cross-reference id (merge witness input). -/
def aniW2 : Row := { anilist_id := Val.num 8, title := some "x" }

/-- The integer key a primary (or secondary) row contributes to the merge
index/lookup: `None` when the `mal_id` is falsy, `some int(mal_id)` when
numeric (the raising malformed-truthy case is mapped to `None`; it cannot
occur in a successful run). -/
def rowMalKey (r : Row) : Option ℤ :=
  match keyOfVal r.mal_id with
  | Except.ok k => k
  | Except.error _ => Option.none

/-! ## Supporting lemmas -/

attribute [local semireducible] Rat.add Rat.sub Rat.mul Rat.inv

lemma svOf_some_pos {r : Row} {s : ℚ} {n : ℤ} (h : svOf r = some (s, n)) : 0 < n := by
  unfold svOf at h
  split at h
  · split at h
    · rw [Option.some.injEq, Prod.mk.injEq] at h
      obtain ⟨h1, h2⟩ := h
      omega
    · exact Option.noConfusion h
  · exact Option.noConfusion h

lemma mem_eligPairs {rows : List Row} {t : Row × ℚ × ℤ} :
    t ∈ eligPairs rows ↔ t.1 ∈ rows ∧ svOf t.1 = some t.2 := by
  constructor
  · intro h
    rcases List.mem_filterMap.1 h with ⟨r, hr, he⟩
    rcases Option.map_eq_some'.1 he with ⟨p, hp, rfl⟩
    exact ⟨hr, hp⟩
  · intro ⟨h1, h2⟩
    exact List.mem_filterMap.2 ⟨t.1, h1, by rw [h2]; simp⟩

lemma eligPairs_map_fst (rows : List Row) :
    (eligPairs rows).map Prod.fst = rows.filter fun r => (svOf r).isSome := by
  induction rows with
  | nil => rfl
  | cons r rs ih =>
    unfold eligPairs at ih ⊢
    rw [List.filterMap_cons, List.filter_cons]
    cases h : svOf r with
    | none => simp [h, ih]
    | some p => simp [h, ih]

lemma eligPairs_length_le (rows : List Row) : (eligPairs rows).length ≤ rows.length := by
  have := congrArg List.length (eligPairs_map_fst rows)
  rw [List.length_map] at this
  rw [this]
  exact List.length_filter_le _ _

lemma plain_map_fst (rows : List Row) (prior : Option ℚ) :
    (compute_bayesian_scores rows prior).map Prod.fst =
      rows.filter fun r => (svOf r).isSome := by
  rw [← eligPairs_map_fst]
  unfold compute_bayesian_scores
  by_cases h : (eligPairs rows).isEmpty
  · rw [List.isEmpty_iff] at h
    simp [h]
  · simp [h, List.map_map, Function.comp]

lemma plain_length (rows : List Row) (prior : Option ℚ) :
    (compute_bayesian_scores rows prior).length = (eligPairs rows).length := by
  have := congrArg List.length (plain_map_fst rows prior)
  have h2 := congrArg List.length (eligPairs_map_fst rows)
  rw [List.length_map] at this h2
  rw [this, h2]

lemma norm_range_length (vals : List ℝ) : (norm_range vals).length = vals.length := by
  unfold norm_range
  split
  · next h => rw [List.isEmpty_iff] at h; simp [h]
  · split <;> simp

lemma recencyNorm_length (years : List (Option ℤ)) :
    (recencyNorm years).length = years.length := by
  unfold recencyNorm
  split <;> simp

lemma baseScoresOf_length (vals : List (Row × ℚ × ℤ)) (prior : Option ℚ) :
    (baseScoresOf vals prior).length = vals.length := by
  simp [baseScoresOf]

lemma popLogs_length (vals : List (Row × ℚ × ℤ)) : (popLogs vals).length = vals.length := by
  simp [popLogs]

lemma zipWith4_map_fst {α β γ δ η ζ : Type _} (proj : α → ζ) (h : α → β → γ → δ → η) :
    ∀ (as : List α) (bs : List β) (cs : List γ) (ds : List δ),
      bs.length = as.length → cs.length = as.length → ds.length = as.length →
      (zipWith4 (fun a b c d => (proj a, h a b c d)) as bs cs ds).map Prod.fst =
        as.map proj := by
  intro as
  induction as with
  | nil => intro bs cs ds _ _ _; cases bs <;> cases cs <;> cases ds <;> rfl
  | cons a as ih =>
    intro bs cs ds hb hc hd
    cases bs with
    | nil => exact absurd hb (by simp)
    | cons b bs =>
      cases cs with
      | nil => exact absurd hc (by simp)
      | cons c cs =>
        cases ds with
        | nil => exact absurd hd (by simp)
        | cons d ds =>
          simp only [zipWith4, List.map_cons, List.length_cons] at *
          exact congrArg (_ :: ·) (ih bs cs ds (by omega) (by omega) (by omega))

lemma rec_map_fst (rows : List Row) (prior : Option ℚ) (pw rw : ℚ) :
    (compute_recommendation_scores rows prior pw rw).map Prod.fst =
      rows.filter fun r => (svOf r).isSome := by
  rw [← eligPairs_map_fst]
  unfold compute_recommendation_scores
  by_cases h : (eligPairs rows).isEmpty
  · rw [List.isEmpty_iff] at h
    simp [h]
  · simp only [h, Bool.false_eq_true, if_false]
    exact zipWith4_map_fst Prod.fst _ (eligPairs rows) _ _ _
      (baseScoresOf_length _ _)
      (by rw [norm_range_length, popLogs_length])
      (by rw [recencyNorm_length, List.length_map])

lemma rec_length (rows : List Row) (prior : Option ℚ) (pw rw : ℚ) :
    (compute_recommendation_scores rows prior pw rw).length = (eligPairs rows).length := by
  have := congrArg List.length (rec_map_fst rows prior pw rw)
  have h2 := congrArg List.length (eligPairs_map_fst rows)
  rw [List.length_map] at this h2
  rw [this, h2]

/-! ## Claim C4 -/

/-- C4 counterexample: on eligible vote counts `[2000, 4000]` the code's
default prior weight is `sorted(votes)[1] = 4000`, not the statistical
median `3000`; with rows `(score 0, votes 2000)` and `(score 10, votes
4000)` the default-prior outputs differ from the outputs under an explicit
prior of `max(1000, 3000)`, so the claim's description of the default is
false. -/
theorem C4_cex :
    (compute_bayesian_scores
        [({ score := Val.num 0, scored_by := Val.num 2000 } : Row),
         { score := Val.num 10, scored_by := Val.num 4000 }] Option.none).map Prod.snd ≠
      (compute_bayesian_scores
        [({ score := Val.num 0, scored_by := Val.num 2000 } : Row),
         { score := Val.num 10, scored_by := Val.num 4000 }]
        (some (max 1000 (statMedian (eligVotes
          [({ score := Val.num 0, scored_by := Val.num 2000 } : Row),
           { score := Val.num 10, scored_by := Val.num 4000 }]))))).map Prod.snd := by
  decide

/-- C4 (amended): for every non-empty eligible row set, when the caller
supplies no prior weight the plain Bayesian and recommendation engines
behave exactly as if `max(1000, sorted(votes)[len(votes)//2])` — the
upper-middle element of the sorted vote counts — had been supplied
explicitly; that element agrees with the statistical median exactly on
odd-sized vote sets. -/
theorem C4_default_prior (rows : List Row) (pw rw : ℚ) (_h : eligPairs rows ≠ []) :
    (compute_bayesian_scores rows Option.none =
      compute_bayesian_scores rows
        (some ((max 1000 (upperMid (eligVotes rows)) : ℤ) : ℚ))
    ∧ compute_recommendation_scores rows Option.none pw rw =
      compute_recommendation_scores rows
        (some ((max 1000 (upperMid (eligVotes rows)) : ℤ) : ℚ)) pw rw)
    ∧ ((eligVotes rows).length % 2 = 1 →
      statMedian (eligVotes rows) = ((upperMid (eligVotes rows) : ℤ) : ℚ)) :=
  ⟨⟨rfl, rfl⟩, fun hodd => by
    unfold statMedian upperMid
    rw [if_pos hodd]⟩

/-- C4 witness: the amended default-prior equation instantiated on a
concrete three-row input (odd eligible count, so the default also matches
the statistical median there). -/
theorem C4_default_prior_witness :
    compute_bayesian_scores
        [({ score := Val.num 8, scored_by := Val.num 100 } : Row),
         { score := Val.num 6, scored_by := Val.num 4000 },
         { score := Val.num 7, scored_by := Val.num 2000 }] Option.none =
      compute_bayesian_scores
        [({ score := Val.num 8, scored_by := Val.num 100 } : Row),
         { score := Val.num 6, scored_by := Val.num 4000 },
         { score := Val.num 7, scored_by := Val.num 2000 }]
        (some ((max 1000 (upperMid (eligVotes
          [({ score := Val.num 8, scored_by := Val.num 100 } : Row),
           { score := Val.num 6, scored_by := Val.num 4000 },
           { score := Val.num 7, scored_by := Val.num 2000 }])) : ℤ) : ℚ))
    ∧ statMedian (eligVotes
          [({ score := Val.num 8, scored_by := Val.num 100 } : Row),
           { score := Val.num 6, scored_by := Val.num 4000 },
           { score := Val.num 7, scored_by := Val.num 2000 }]) =
        ((upperMid (eligVotes
          [({ score := Val.num 8, scored_by := Val.num 100 } : Row),
           { score := Val.num 6, scored_by := Val.num 4000 },
           { score := Val.num 7, scored_by := Val.num 2000 }]) : ℤ) : ℚ) :=
  ⟨(C4_default_prior _ (1/5) (1/10)
      (by intro hc; exact absurd (congrArg List.length hc) (by decide))).1.1,
   (C4_default_prior _ (1/5) (1/10)
      (by intro hc; exact absurd (congrArg List.length hc) (by decide))).2
      (by decide)⟩

/-! ## Consensus evaluation helpers -/

lemma aniPart_none (na : ℚ) : aniPart Val.none na = Except.ok [] := by
  unfold aniPart
  rw [if_neg]
  exact fun hc => hc.1 rfl

lemma aniPart_not_pos (sa : Val) {na : ℚ} (h : ¬ 0 < na) : aniPart sa na = Except.ok [] := by
  unfold aniPart
  rw [if_neg]
  exact fun hc => h hc.2

lemma aniPart_num (q : ℚ) {na : ℚ} (h : 0 < na) :
    aniPart (Val.num q) na = Except.ok [(((q : ℚ) : ℝ), pseudoW na)] := by
  unfold aniPart
  rw [if_pos ⟨by simp, h⟩]

lemma blendRow_fallback (r : Row) (sm : Option ℚ) (nm : ℤ) (na : ℚ)
    (h : partsOf sm nm [] = []) :
    blendRow r sm nm na [] =
      (match sm with
       | some q => Except.ok (some (r, ((q : ℚ) : ℝ), max 1 ((nm : ℤ) : ℚ)))
       | Option.none =>
         match r.score_anilist with
         | Val.none => Except.ok Option.none
         | Val.num q => Except.ok (some (r, ((q : ℚ) : ℝ), max 1 na))
         | _ => Except.error ()) := by
  unfold blendRow
  rw [if_neg (fun hc => hc.1 h)]
  cases sm <;> rfl

lemma rowConsensus_defaultRow (α : ℚ) : rowConsensus α defaultRow = Except.ok Option.none := by
  unfold rowConsensus
  show (match aniPart defaultRow.score_anilist (α * 0) with
    | Except.ok pw2 => blendRow defaultRow Option.none (nMal defaultRow) (α * 0) pw2
    | Except.error _ => Except.error ()) = Except.ok Option.none
  rw [show defaultRow.score_anilist = Val.none from rfl, aniPart_none]
  show blendRow defaultRow Option.none 0 (α * 0) [] = Except.ok Option.none
  rw [blendRow_fallback defaultRow Option.none 0 (α * 0) rfl]
  rfl

lemma pseudoW_pos {n : ℚ} (h : 0 < n) : 0 < pseudoW n := by
  unfold pseudoW log10
  apply Real.logb_pos (by norm_num)
  have : (0 : ℝ) < ((n : ℚ) : ℝ) := by exact_mod_cast h
  have hm : (0 : ℝ) ≤ max 0 ((n : ℚ) : ℝ) := le_max_left _ _
  nlinarith [le_max_right (0 : ℝ) ((n : ℚ) : ℝ)]

/-! ## Claim C8 -/

lemma bayesian_score_same (s n m : ℚ) (hn : 0 < n) (hm : 0 ≤ m) :
    bayesian_score s n s m = s := by
  unfold bayesian_score
  have hnm : n + m ≠ 0 := by linarith
  field_simp
  ring

/-- C8 counterexample: the claim quantifies over *every* choice of prior
weight; with the single eligible row `(score 5, votes 1)` and the supplied
prior weight `-1` the weight sum `n + m` is zero — the code raises
`ZeroDivisionError` there (total division renders the score as 0 in the
embedding) — so the output score is not the common score 5. -/
theorem C8_cex :
    (compute_bayesian_scores [({ score := Val.num 5, scored_by := Val.num 1 } : Row)]
        (some (-1))).map Prod.snd = [0] ∧ (0 : ℚ) ≠ 5 := by
  exact ⟨by decide, by decide⟩

/-- C8 (amended): for every non-empty eligible row set in which every row
carries the same score `s`, the vote-weighted center equals `s`, and every
output shrunk score equals `s` exactly, for every *nonnegative* choice of
prior weight (and for the default). -/
theorem C8_equal_scores (rows : List Row) (s : ℚ) (prior : Option ℚ)
    (hne : eligPairs rows ≠ [])
    (hs : ∀ t ∈ eligPairs rows, t.2.1 = s)
    (hp : ∀ p, prior = some p → 0 ≤ p) :
    centerOf (eligPairs rows) = s
    ∧ ∀ t ∈ compute_bayesian_scores rows prior, t.2 = s := by
  have hpos : ∀ t ∈ eligPairs rows, (0 : ℚ) < ((t.2.2 : ℤ) : ℚ) := by
    intro t ht
    exact_mod_cast svOf_some_pos (mem_eligPairs.1 ht).2
  have htot : 0 < totVotes (eligPairs rows) := by
    apply List.sum_pos
    · intro x hx
      rcases List.mem_map.1 hx with ⟨t, ht, rfl⟩
      exact hpos t ht
    · simpa using hne
  have hcenter : centerOf (eligPairs rows) = s := by
    unfold centerOf
    rw [List.map_congr_left (fun t ht => by rw [hs t ht] :
      ∀ t ∈ eligPairs rows, t.2.1 * ((t.2.2 : ℤ) : ℚ) = s * ((t.2.2 : ℤ) : ℚ))]
    have hsum : (List.map (fun t => s * ((t.2.2 : ℤ) : ℚ)) (eligPairs rows)).sum =
        s * totVotes (eligPairs rows) := List.sum_map_mul_left _ _ _
    rw [hsum, mul_div_assoc, div_self (ne_of_gt htot), mul_one]
  have hm : 0 ≤ priorOf ((eligPairs rows).map fun t => t.2.2) prior := by
    cases prior with
    | none =>
      have h0 : (0 : ℤ) ≤ max 1000 (upperMid ((eligPairs rows).map fun t => t.2.2)) :=
        le_trans (by omega) (le_max_left _ _)
      show (0 : ℚ) ≤ ((max 1000 (upperMid ((eligPairs rows).map fun t => t.2.2)) : ℤ) : ℚ)
      exact_mod_cast h0
    | some p => exact hp p rfl
  refine ⟨hcenter, ?_⟩
  intro t ht
  unfold compute_bayesian_scores at ht
  rw [if_neg (by simpa using hne)] at ht
  rcases List.mem_map.1 ht with ⟨u, hu, rfl⟩
  rw [hs u hu, hcenter]
  exact bayesian_score_same s _ _ (hpos u hu) hm

/-- C8 witness: two rows with the common score 7 and an explicit
nonnegative prior weight 500; the center is 7 and each output is 7. -/
theorem C8_equal_scores_witness :
    centerOf (eligPairs
      [({ score := Val.num 7, scored_by := Val.num 3 } : Row),
       { score := Val.num 7, scored_by := Val.num 800 }]) = 7
    ∧ ∀ t ∈ compute_bayesian_scores
        [({ score := Val.num 7, scored_by := Val.num 3 } : Row),
         { score := Val.num 7, scored_by := Val.num 800 }] (some 500), t.2 = 7 :=
  C8_equal_scores _ 7 (some 500)
    (by intro hc; exact absurd (congrArg List.length hc) (by decide))
    (by decide)
    (by intro p h; cases h; norm_num)

/-! ## Claim C5 -/

lemma eligPairs_eq_nil {rows : List Row} (h : ∀ r ∈ rows, svOf r = Option.none) :
    eligPairs rows = [] := by
  unfold eligPairs
  rw [List.filterMap_eq_nil_iff]
  intro r hr
  rw [h r hr]
  rfl

lemma collectRecs_all_none {α : ℚ} : ∀ {rows : List Row},
    (∀ r ∈ rows, rowConsensus α r = Except.ok Option.none) →
    collectRecs α rows = Except.ok [] := by
  intro rows
  induction rows with
  | nil => intro _; rfl
  | cons r rs ih =>
    intro h
    unfold collectRecs
    rw [h r (List.mem_cons_self _ _), ih fun x hx => h x (List.mem_cons_of_mem _ hx)]

/-- C5 counterexample: a row whose score is the unparsable string case.  The
plain Bayesian and recommendation engines exclude it and return `[]`, but
the consensus engine does *not* return an empty result: its score parse
(scoring.py line 101) is outside any handler and the call raises, so "every
scoring function returns an empty result" is false. -/
theorem C5_cex :
    compute_bayesian_scores [({ score := Val.malformed } : Row)] Option.none = []
    ∧ compute_recommendation_scores [({ score := Val.malformed } : Row)]
        Option.none (1/5) (1/10) = []
    ∧ compute_consensus_bayesian [({ score := Val.malformed } : Row)] Option.none (3/10) =
        Except.error () :=
  ⟨rfl, rfl, rfl⟩

/-- C5 (amended): rows with an absent/null/empty/unparsable score or a
non-positive vote count are excluded from the plain Bayesian and
recommendation outputs entirely (strictly shorter output when one exists);
when no row is eligible those two engines return an empty result, and the
consensus engine returns an empty result when every row is excluded without
raising (a malformed score or secondary-popularity field instead raises out
of the consensus engine). -/
theorem C5_exclusion (rows : List Row) (prior : Option ℚ) (pw rw α : ℚ) :
    ((∃ r ∈ rows, svOf r = Option.none) →
      (compute_bayesian_scores rows prior).length < rows.length
      ∧ (compute_recommendation_scores rows prior pw rw).length < rows.length)
    ∧ ((∀ r ∈ rows, svOf r = Option.none) →
      compute_bayesian_scores rows prior = []
      ∧ compute_recommendation_scores rows prior pw rw = [])
    ∧ ((∀ r ∈ rows, rowConsensus α r = Except.ok Option.none) →
      compute_consensus_bayesian rows prior α = Except.ok []) := by
  refine ⟨?_, ?_, ?_⟩
  · rintro ⟨r, hr, hnone⟩
    have hflt : (rows.filter fun x => (svOf x).isSome).length < rows.length :=
      List.length_filter_lt_length_iff_exists.2 ⟨r, hr, by rw [hnone]; simp⟩
    have h1 := congrArg List.length (eligPairs_map_fst rows)
    rw [List.length_map] at h1
    constructor
    · rw [plain_length, h1]; exact hflt
    · rw [rec_length, h1]; exact hflt
  · intro h
    have he := eligPairs_eq_nil h
    constructor
    · unfold compute_bayesian_scores
      rw [he]
      rfl
    · unfold compute_recommendation_scores
      rw [he]
      rfl
  · intro h
    unfold compute_consensus_bayesian
    rw [collectRecs_all_none h]
    rfl

/-- C5 witness: the three amended clauses exercised on concrete inputs — a
mixed eligible/ineligible pair, a single ineligible row, and a row the
consensus engine excludes without raising. -/
theorem C5_exclusion_witness :
    ((compute_bayesian_scores
        [({ score := Val.num 8, scored_by := Val.num 100 } : Row),
         { score := Val.empty }] Option.none).length < 2
      ∧ (compute_recommendation_scores
        [({ score := Val.num 8, scored_by := Val.num 100 } : Row),
         { score := Val.empty }] Option.none (1/5) (1/10)).length < 2)
    ∧ (compute_bayesian_scores [({ score := Val.empty } : Row)] Option.none = []
      ∧ compute_recommendation_scores [({ score := Val.empty } : Row)]
          Option.none (1/5) (1/10) = [])
    ∧ compute_consensus_bayesian [(defaultRow : Row)] Option.none (3/10) = Except.ok [] := by
  refine ⟨?_, ?_, ?_⟩
  · exact (C5_exclusion _ Option.none (1/5) (1/10) (3/10)).1
      ⟨{ score := Val.empty }, List.mem_cons_of_mem _ (List.mem_cons_self _ _), rfl⟩
  · exact (C5_exclusion _ Option.none (1/5) (1/10) (3/10)).2.1
      (fun r hr => by rw [List.mem_singleton] at hr; subst hr; rfl)
  · exact (C5_exclusion _ Option.none (1/5) (1/10) (3/10)).2.2 fun r hr => by
      rw [List.mem_singleton] at hr
      subst hr
      exact rowConsensus_defaultRow _

/-! ## Consensus per-row characterisation -/

lemma sMal_ok_some {r : Row} {q : ℚ} (h : sMal r = Except.ok (some q)) :
    r.score = Val.num q := by
  unfold sMal at h
  cases hsc : r.score <;> rw [hsc] at h <;> simp_all

lemma sMal_ok_none {r : Row} (h : sMal r = Except.ok Option.none) :
    r.score = Val.none ∨ r.score = Val.empty := by
  unfold sMal at h
  cases hsc : r.score <;> rw [hsc] at h <;> simp_all

lemma malPart_ne_nil {sm : Option ℚ} {nm : ℤ} (h : malPart sm nm ≠ []) :
    ∃ q, sm = some q := by
  cases sm with
  | none => exact absurd rfl h
  | some q => exact ⟨q, rfl⟩

lemma aniPart_ok_ne_nil {sa : Val} {na : ℚ} {pw2 : List (ℝ × ℝ)}
    (h : aniPart sa na = Except.ok pw2) (hne : pw2 ≠ []) : ∃ q, sa = Val.num q := by
  cases sa with
  | num q => exact ⟨q, rfl⟩
  | none =>
    rw [aniPart_none, Except.ok.injEq] at h
    exact absurd h.symm hne
  | empty =>
    unfold aniPart at h
    split at h
    · exact Except.noConfusion h
    · rw [Except.ok.injEq] at h
      exact absurd h.symm hne
  | malformed =>
    unfold aniPart at h
    split at h
    · exact Except.noConfusion h
    · rw [Except.ok.injEq] at h
      exact absurd h.symm hne

lemma stripCons_writeCons (r : Row) (s : ℝ) (n : ℚ) :
    stripCons (writeCons r s n) = stripCons r := rfl

lemma kept_of_score_num {r : Row} {q : ℚ} (h : r.score = Val.num q) :
    consensusKept r = true := by
  unfold consensusKept
  rw [h]
  cases r.score_anilist <;> rfl

lemma kept_of_ani_num {r : Row} {q : ℚ} (h : r.score_anilist = Val.num q) :
    consensusKept r = true := by
  unfold consensusKept
  rw [h]
  cases r.score <;> rfl

/-- Per-row characterisation of the consensus loop body: a kept row differs
from its input only in the two derived fields, and the rows kept are exactly
those with a parsable score from some source. -/
lemma rowConsensus_char {α : ℚ} {r : Row} {res : Option (Row × ℝ × ℚ)}
    (h : rowConsensus α r = Except.ok res) :
    match res with
    | some t => stripCons t.1 = stripCons r ∧ consensusKept r = true
    | Option.none => consensusKept r = false := by
  unfold rowConsensus at h
  split at h
  · next sm pop heq1 heq2 =>
    split at h
    · next pw2 heq3 =>
      unfold blendRow at h
      split at h
      · next hcond =>
        rw [Except.ok.injEq] at h
        subst h
        refine ⟨rfl, ?_⟩
        rcases hcond with ⟨hne, _⟩
        unfold partsOf at hne
        by_cases hmp : malPart sm (nMal r) = []
        · rw [hmp, List.nil_append] at hne
          obtain ⟨q, hq⟩ := aniPart_ok_ne_nil heq3 hne
          exact kept_of_ani_num hq
        · obtain ⟨q, hq⟩ := malPart_ne_nil hmp
          subst hq
          exact kept_of_score_num (sMal_ok_some heq1)
      · split at h
        · next q =>
          rw [Except.ok.injEq] at h
          subst h
          exact ⟨rfl, kept_of_score_num (sMal_ok_some heq1)⟩
        · split at h
          · next hsa =>
            rw [Except.ok.injEq] at h
            subst h
            show consensusKept r = false
            rcases sMal_ok_none heq1 with hsc | hsc <;>
              (unfold consensusKept; rw [hsc, hsa])
          · next q hsa =>
            rw [Except.ok.injEq] at h
            subst h
            exact ⟨rfl, kept_of_ani_num hsa⟩
          · exact Except.noConfusion h
    · exact Except.noConfusion h
  · exact Except.noConfusion h

lemma rowConsensus_strip {α : ℚ} {r : Row} {t : Row × ℝ × ℚ}
    (h : rowConsensus α r = Except.ok (some t)) : stripCons t.1 = stripCons r :=
  (rowConsensus_char h).1

lemma collectRecs_strip {α : ℚ} : ∀ {rows : List Row} {recs : List (Row × ℝ × ℚ)},
    collectRecs α rows = Except.ok recs →
    recs.map (fun t => stripCons t.1) = (rows.filter consensusKept).map stripCons := by
  intro rows
  induction rows with
  | nil =>
    intro recs h
    rw [show collectRecs α [] = Except.ok [] from rfl, Except.ok.injEq] at h
    subst h
    rfl
  | cons r rs ih =>
    intro recs h
    unfold collectRecs at h
    split at h
    · next t rest heq1 heq2 =>
      rw [Except.ok.injEq] at h
      subst h
      have hc := rowConsensus_char heq1
      rw [List.filter_cons, if_pos (by exact_mod_cast hc.2)]
      simp only [List.map_cons, hc.1]
      rw [ih heq2]
    · next rest heq1 heq2 =>
      rw [Except.ok.injEq] at h
      subst h
      have hc := rowConsensus_char heq1
      rw [List.filter_cons, if_neg (by simp [hc])]
      exact ih heq2
    · exact Except.noConfusion h

lemma consensus_ok_strip {rows : List Row} {prior : Option ℚ} {α : ℚ} {l : List (Row × ℝ)}
    (h : compute_consensus_bayesian rows prior α = Except.ok l) :
    l.map (fun p => stripCons p.1) = (rows.filter consensusKept).map stripCons := by
  unfold compute_consensus_bayesian at h
  split at h
  · exact Except.noConfusion h
  · next recs heq =>
    split at h
    · next hemp =>
      rw [Except.ok.injEq] at h
      subst h
      have := collectRecs_strip heq
      rw [List.isEmpty_iff] at hemp
      rw [hemp] at this
      rw [← this]
      rfl
    · rw [Except.ok.injEq] at h
      subst h
      rw [show (consensusFinish recs prior).map (fun p => stripCons p.1) =
        recs.map (fun t => stripCons t.1) by simp [consensusFinish]]
      exact collectRecs_strip heq

/-! ## Claim C10 -/

lemma consensus_defaultRow (α : ℚ) :
    compute_consensus_bayesian [defaultRow] Option.none α = Except.ok [] := by
  unfold compute_consensus_bayesian
  rw [collectRecs_all_none fun r hr => by
    rw [List.mem_singleton] at hr
    subst hr
    exact rowConsensus_defaultRow α]
  rfl

/-- C10: each engine emits its (row, score) pairs in exactly the input
order of its eligible rows — the plain and recommendation outputs project
to the filtered input list, and (modulo the two derived fields the
consensus engine writes) so does a successful consensus output; no engine
reorders. -/
theorem C10_order (rows : List Row) (prior : Option ℚ) (pw rw α : ℚ)
    (l : List (Row × ℝ)) (hc : compute_consensus_bayesian rows prior α = Except.ok l) :
    (compute_bayesian_scores rows prior).map Prod.fst =
      rows.filter (fun r => (svOf r).isSome)
    ∧ (compute_recommendation_scores rows prior pw rw).map Prod.fst =
      rows.filter (fun r => (svOf r).isSome)
    ∧ l.map (fun p => stripCons p.1) = (rows.filter consensusKept).map stripCons :=
  ⟨plain_map_fst rows prior, rec_map_fst rows prior pw rw, consensus_ok_strip hc⟩

/-- C10 witness: the order property instantiated on a concrete input whose
consensus run succeeds with an empty record list. -/
theorem C10_order_witness :
    (compute_bayesian_scores [defaultRow] Option.none).map Prod.fst =
      [defaultRow].filter (fun r => (svOf r).isSome)
    ∧ (compute_recommendation_scores [defaultRow] Option.none (1/5) (1/10)).map Prod.fst =
      [defaultRow].filter (fun r => (svOf r).isSome)
    ∧ ([] : List (Row × ℝ)).map (fun p => stripCons p.1) =
      ([defaultRow].filter consensusKept).map stripCons :=
  C10_order [defaultRow] Option.none (1/5) (1/10) (3/10) [] (consensus_defaultRow (3/10))

/-! ## Concrete consensus evaluations -/

lemma rowConsensus_eq_blend (α : ℚ) (r : Row) (sm : Option ℚ) (pop : ℚ)
    (pw2 : List (ℝ × ℝ)) (h1 : sMal r = Except.ok sm) (h2 : popAni r = Except.ok pop)
    (h3 : aniPart r.score_anilist (α * pop) = Except.ok pw2) :
    rowConsensus α r = blendRow r sm (nMal r) (α * pop) pw2 := by
  unfold rowConsensus
  rw [h1, h2]
  show (match aniPart r.score_anilist (α * pop) with
    | Except.ok pw2 => blendRow r sm (nMal r) (α * pop) pw2
    | Except.error _ => Except.error ()) = _
  rw [h3]

lemma malPart_some_pos (q : ℚ) {nm : ℤ} (h : 0 < nm) :
    malPart (some q) nm = [(((q : ℚ) : ℝ), pseudoW ((nm : ℤ) : ℚ))] := by
  unfold malPart
  show (if 0 < nm then [(((q : ℚ) : ℝ), pseudoW ((nm : ℤ) : ℚ))] else []) = _
  rw [if_pos h]

lemma blendS_single (p w : ℝ) (hw : w ≠ 0) : blendS [(p, w)] = p := by
  unfold blendS
  simp only [List.map_cons, List.map_nil, List.sum_cons, List.sum_nil, add_zero]
  rw [mul_div_assoc, div_self hw, mul_one]

lemma rc_eval_malOnly :
    rowConsensus (3/10) rowMalOnly =
      Except.ok (some (writeCons rowMalOnly 8 500, (8 : ℝ), (500 : ℚ))) := by
  rw [rowConsensus_eq_blend (3/10) rowMalOnly (some 8) 0 [] rfl rfl
    (by rw [show rowMalOnly.score_anilist = Val.none from rfl]; exact aniPart_none _)]
  rw [show nMal rowMalOnly = 500 from by decide]
  unfold blendRow
  rw [show partsOf (some 8) 500 [] = [(((8 : ℚ) : ℝ), pseudoW ((500 : ℤ) : ℚ))] from by
    unfold partsOf
    rw [malPart_some_pos 8 (by norm_num), List.append_nil]]
  have hw : (0 : ℝ) < pseudoW ((500 : ℤ) : ℚ) := pseudoW_pos (by norm_num)
  rw [if_pos ⟨by simp, by simpa using hw⟩]
  rw [blendS_single _ _ (ne_of_gt hw)]
  norm_num

/-! ## Claim C9 -/

/-- C9: filter, merge (modelled functionally), plain Bayesian and
recommendation scoring return input rows unmodified — their outputs contain
the input rows themselves — while the per-row consensus step returns a row
that can differ from its input only in the two derived fields
`consensus_score`/`consensus_votes`, and every row of a successful
consensus output agrees with some input row outside those two fields. -/
theorem C9_frame (rows : List Row) (a : FilterArgs) (prior : Option ℚ) (pw rw α : ℚ) :
    (∀ r ∈ filter_rows a rows, r ∈ rows)
    ∧ (∀ t ∈ compute_bayesian_scores rows prior, t.1 ∈ rows)
    ∧ (∀ t ∈ compute_recommendation_scores rows prior pw rw, t.1 ∈ rows)
    ∧ (∀ (r : Row) (t : Row × ℝ × ℚ), rowConsensus α r = Except.ok (some t) →
        stripCons t.1 = stripCons r)
    ∧ (∀ l, compute_consensus_bayesian rows prior α = Except.ok l →
        ∀ t ∈ l, ∃ r ∈ rows, stripCons t.1 = stripCons r) := by
  refine ⟨?_, ?_, ?_, ?_, ?_⟩
  · intro r hr
    exact (List.mem_filter.1 hr).1
  · intro t ht
    have h1 : t.1 ∈ (compute_bayesian_scores rows prior).map Prod.fst :=
      List.mem_map_of_mem Prod.fst ht
    rw [plain_map_fst] at h1
    exact (List.mem_filter.1 h1).1
  · intro t ht
    have h1 : t.1 ∈ (compute_recommendation_scores rows prior pw rw).map Prod.fst :=
      List.mem_map_of_mem Prod.fst ht
    rw [rec_map_fst] at h1
    exact (List.mem_filter.1 h1).1
  · intro r t h
    exact rowConsensus_strip h
  · intro l hl t ht
    have h1 : stripCons t.1 ∈ l.map fun p => stripCons p.1 :=
      List.mem_map_of_mem _ ht
    rw [consensus_ok_strip hl] at h1
    rcases List.mem_map.1 h1 with ⟨r, hr, he⟩
    exact ⟨r, (List.mem_filter.1 hr).1, he.symm⟩

/-- C9 witness: the consensus step on a concrete primary-only row writes
exactly the two derived fields — stripping them recovers the input row. -/
theorem C9_frame_witness :
    stripCons (writeCons rowMalOnly 8 500) = stripCons rowMalOnly :=
  (C9_frame [] {} Option.none (1/5) (1/10) (3/10)).2.2.2.1 rowMalOnly
    (writeCons rowMalOnly 8 500, (8 : ℝ), (500 : ℚ)) rc_eval_malOnly

/-! ## Claim C2 -/

lemma val_num_of_matchB {v : Val}
    (h : (match v with | Val.num _ => true | _ => false) = true) : ∃ q, v = Val.num q := by
  cases v with
  | num q => exact ⟨q, rfl⟩
  | none => exact absurd h (by simp)
  | empty => exact absurd h (by simp)
  | malformed => exact absurd h (by simp)

lemma pa_pos_of_matchB {α : ℚ} {v : Val}
    (h : (match v with | Val.num q => decide (0 < α * q) | _ => false) = true) :
    ∃ q, v = Val.num q ∧ 0 < α * q := by
  cases v with
  | num q => exact ⟨q, rfl, of_decide_eq_true h⟩
  | none => exact absurd h (by simp)
  | empty => exact absurd h (by simp)
  | malformed => exact absurd h (by simp)

lemma popAni_ok {r : Row} {pop : ℚ} (h : popAni r = Except.ok pop) :
    r.popularity_anilist = Val.num pop ∨ pop = 0 := by
  unfold popAni at h
  cases hpa : r.popularity_anilist <;> rw [hpa] at h
  · rw [Except.ok.injEq] at h
    exact Or.inr h.symm
  · rw [Except.ok.injEq] at h
    exact Or.inr h.symm
  · exact Except.noConfusion h
  · rw [Except.ok.injEq] at h
    exact Or.inl (by rw [h])

lemma aniPart_ok_pos {sa : Val} {na : ℚ} {pw2 : List (ℝ × ℝ)}
    (h : aniPart sa na = Except.ok pw2) (hne : pw2 ≠ []) :
    0 < na ∧ ∃ q, sa = Val.num q ∧ pw2 = [(((q : ℚ) : ℝ), pseudoW na)] := by
  cases sa with
  | num q =>
    unfold aniPart at h
    split at h
    · next hc =>
      rw [Except.ok.injEq] at h
      exact ⟨hc.2, q, rfl, h.symm⟩
    · rw [Except.ok.injEq] at h
      exact absurd h.symm hne
  | none =>
    rw [aniPart_none, Except.ok.injEq] at h
    exact absurd h.symm hne
  | empty =>
    unfold aniPart at h
    split at h
    · exact Except.noConfusion h
    · rw [Except.ok.injEq] at h
      exact absurd h.symm hne
  | malformed =>
    unfold aniPart at h
    split at h
    · exact Except.noConfusion h
    · rw [Except.ok.injEq] at h
      exact absurd h.symm hne

lemma malPart_weight_pos {sm : Option ℚ} {nm : ℤ} : ∀ x ∈ malPart sm nm, 0 < x.2 := by
  intro x hx
  unfold malPart at hx
  split at hx
  · split at hx
    · next h =>
      rw [List.mem_singleton] at hx
      subst hx
      exact pseudoW_pos (by exact_mod_cast h)
    · simp at hx
  · simp at hx

lemma aniPart_weight_pos {sa : Val} {na : ℚ} {pw2 : List (ℝ × ℝ)}
    (h : aniPart sa na = Except.ok pw2) : ∀ x ∈ pw2, 0 < x.2 := by
  intro x hx
  unfold aniPart at h
  split at h
  · next hc =>
    split at h
    · rw [Except.ok.injEq] at h
      subst h
      rw [List.mem_singleton] at hx
      subst hx
      exact pseudoW_pos hc.2
    · exact Except.noConfusion h
  · rw [Except.ok.injEq] at h
    subst h
    simp at hx

lemma weights_sum_pos {parts : List (ℝ × ℝ)} (hpos : ∀ x ∈ parts, 0 < x.2)
    (hne : parts ≠ []) : 0 < (parts.map Prod.snd).sum := by
  apply List.sum_pos
  · intro w hw
    rcases List.mem_map.1 hw with ⟨x, hx, rfl⟩
    exact hpos x hx
  · simpa using hne

/-- The per-row consensus step either blends — writing exactly
`consensus_score = s` and `consensus_votes = round(n)` — when some source
supplies a usable (score, weight>0) pair, or keeps the row untouched on the
bare-score fallback. -/
lemma rowConsensus_fields {α : ℚ} {r out : Row} {s : ℝ} {n : ℚ}
    (h : rowConsensus α r = Except.ok (some (out, s, n))) :
    (out.consensus_score = some s ∧ out.consensus_votes = some (pyRound n)
      ∧ (malUsableB r || aniUsableB α r) = true)
    ∨ (out = r ∧ (malUsableB r || aniUsableB α r) = false) := by
  unfold rowConsensus at h
  split at h
  · next sm pop heq1 heq2 =>
    split at h
    · next pw2 heq3 =>
      unfold blendRow at h
      split at h
      · next hcond =>
        rw [Except.ok.injEq, Option.some.injEq, Prod.mk.injEq] at h
        obtain ⟨hout, hsn⟩ := h
        rw [Prod.mk.injEq] at hsn
        obtain ⟨hS, hN⟩ := hsn
        subst hout hS hN
        left
        refine ⟨rfl, rfl, ?_⟩
        rcases hcond with ⟨hne, _⟩
        unfold partsOf at hne
        by_cases hmp : malPart sm (nMal r) = []
        · rw [hmp, List.nil_append] at hne
          obtain ⟨hna, q, hsaq, _⟩ := aniPart_ok_pos heq3 hne
          rcases popAni_ok heq2 with hpa | hp0
          · rw [Bool.or_eq_true]
            right
            unfold aniUsableB
            rw [hsaq, hpa]
            simp [hna]
          · rw [hp0, mul_zero] at hna
            exact absurd hna (by norm_num)
        · obtain ⟨q, hq⟩ := malPart_ne_nil hmp
          subst hq
          have hnm : 0 < nMal r := by
            by_contra hc
            apply hmp
            unfold malPart
            show (if 0 < nMal r then [(((q : ℚ) : ℝ), pseudoW ((nMal r : ℤ) : ℚ))] else []) = []
            rw [if_neg hc]
          rw [Bool.or_eq_true]
          left
          unfold malUsableB
          rw [sMal_ok_some heq1]
          simp [hnm]
      · next hncond =>
        have husable : (malUsableB r || aniUsableB α r) = false := by
          cases hu : (malUsableB r || aniUsableB α r)
          · rfl
          · exfalso
            apply hncond
            have hwpos : ∀ x ∈ partsOf sm (nMal r) pw2, 0 < x.2 := by
              intro x hx
              unfold partsOf at hx
              rcases List.mem_append.1 hx with hx | hx
              · exact malPart_weight_pos x hx
              · exact aniPart_weight_pos heq3 x hx
            have hne : partsOf sm (nMal r) pw2 ≠ [] := by
              rw [Bool.or_eq_true] at hu
              rcases hu with hmal | hani
              · unfold malUsableB at hmal
                rw [Bool.and_eq_true] at hmal
                obtain ⟨hsc, hnm⟩ := hmal
                obtain ⟨q, hq⟩ := val_num_of_matchB hsc
                have hsm : sm = some q := by
                  unfold sMal at heq1
                  rw [hq] at heq1
                  rw [Except.ok.injEq] at heq1
                  exact heq1.symm
                subst hsm
                rw [decide_eq_true_iff] at hnm
                unfold partsOf
                rw [malPart_some_pos q hnm]
                simp
              · unfold aniUsableB at hani
                rw [Bool.and_eq_true] at hani
                obtain ⟨hsa, hpa⟩ := hani
                obtain ⟨q, hq⟩ := val_num_of_matchB hsa
                obtain ⟨qp, hqp, hposa⟩ := pa_pos_of_matchB hpa
                have hpop : pop = qp := by
                  unfold popAni at heq2
                  rw [hqp] at heq2
                  rw [Except.ok.injEq] at heq2
                  exact heq2.symm
                subst hpop
                rw [hq, aniPart_num q hposa, Except.ok.injEq] at heq3
                subst heq3
                unfold partsOf
                simp
            exact ⟨hne, weights_sum_pos hwpos hne⟩
        split at h
        · next q =>
          rw [Except.ok.injEq, Option.some.injEq, Prod.mk.injEq] at h
          exact Or.inr ⟨h.1.symm, husable⟩
        · split at h
          · rw [Except.ok.injEq] at h
            exact Option.noConfusion h
          · next q hsa =>
            rw [Except.ok.injEq, Option.some.injEq, Prod.mk.injEq] at h
            exact Or.inr ⟨h.1.symm, husable⟩
          · exact Except.noConfusion h
    · exact Except.noConfusion h
  · exact Except.noConfusion h

/-- C2 counterexample: the row with only a usable primary pair (score 8,
500 votes) and no secondary data at all *does* receive the two derived
fields — its consensus_score is written as 8 — although only one source
contributes, so "populated only when both source scores contribute" is
false. -/
theorem C2_cex :
    rowConsensus (3/10) rowMalOnly =
      Except.ok (some (writeCons rowMalOnly 8 500, (8 : ℝ), (500 : ℚ)))
    ∧ malUsableB rowMalOnly = true
    ∧ aniUsableB (3/10) rowMalOnly = false
    ∧ (writeCons rowMalOnly 8 500).consensus_score = some 8
    ∧ (writeCons rowMalOnly 8 500).consensus_votes = some 500 :=
  ⟨rc_eval_malOnly, by decide, by decide, rfl, by
    show some (pyRound 500) = some 500
    rw [show pyRound 500 = 500 from by decide]⟩

/-- C2 (amended): on a merged row carrying no derived fields yet, the
consensus engine's per-row step writes `consensus_score` and
`consensus_votes` exactly when *at least one* source supplies a usable
(score, weight>0) pair; a row kept through the bare-score fallback (or with
no usable pair) is returned untouched. -/
theorem C2_fields_written (α : ℚ) (r out : Row) (s : ℝ) (n : ℚ)
    (hclean : r.consensus_score = Option.none ∧ r.consensus_votes = Option.none)
    (h : rowConsensus α r = Except.ok (some (out, s, n))) :
    out.consensus_score.isSome = (malUsableB r || aniUsableB α r)
    ∧ out.consensus_votes.isSome = (malUsableB r || aniUsableB α r)
    ∧ ((malUsableB r || aniUsableB α r) = false → out = r) := by
  rcases rowConsensus_fields h with ⟨h1, h2, h3⟩ | ⟨h1, h2⟩
  · refine ⟨by rw [h1, h3]; rfl, by rw [h2, h3]; rfl, fun hc => ?_⟩
    rw [h3] at hc
    exact Bool.noConfusion hc
  · rw [h1, h2, hclean.1, hclean.2]
    exact ⟨rfl, rfl, fun _ => rfl⟩

/-- C2 witness: the amended property instantiated on the primary-only row —
the fields are written and the usability test is positive. -/
theorem C2_fields_witness :
    (writeCons rowMalOnly 8 500).consensus_score.isSome =
      (malUsableB rowMalOnly || aniUsableB (3/10) rowMalOnly)
    ∧ (writeCons rowMalOnly 8 500).consensus_votes.isSome =
      (malUsableB rowMalOnly || aniUsableB (3/10) rowMalOnly)
    ∧ ((malUsableB rowMalOnly || aniUsableB (3/10) rowMalOnly) = false →
        writeCons rowMalOnly 8 500 = rowMalOnly) :=
  C2_fields_written (3/10) rowMalOnly (writeCons rowMalOnly 8 500) 8 500
    ⟨rfl, rfl⟩ rc_eval_malOnly

/-! ## Claim C1 -/

lemma logb_lt_three {x : ℝ} (h1 : 0 < x) (h2 : x < 1000) : Real.logb 10 x < 3 := by
  rw [Real.logb_lt_iff_lt_rpow (by norm_num) h1]
  rw [show (3 : ℝ) = ((3 : ℕ) : ℝ) by norm_num, Real.rpow_natCast]
  norm_num
  exact h2

lemma two_lt_logb {x : ℝ} (h2 : 100 < x) : 2 < Real.logb 10 x := by
  rw [Real.lt_logb_iff_rpow_lt (by norm_num) (by linarith)]
  rw [show (2 : ℝ) = ((2 : ℕ) : ℝ) by norm_num, Real.rpow_natCast]
  norm_num
  exact h2

lemma pseudoW_eq_logb (n : ℚ) (h : 0 ≤ n) :
    pseudoW n = Real.logb 10 (1 + ((n : ℚ) : ℝ)) := by
  unfold pseudoW log10
  rw [max_eq_right (by exact_mod_cast h)]

lemma pseudoW_500 : pseudoW 500 = Real.logb 10 501 := by
  rw [pseudoW_eq_logb 500 (by norm_num)]
  norm_num

lemma pseudoW_300 : pseudoW 300 = Real.logb 10 301 := by
  rw [pseudoW_eq_logb 300 (by norm_num)]
  norm_num

lemma rc_eval_both :
    rowConsensus (3/10) rowBoth =
      Except.ok (some (writeCons rowBoth scenarioS 800, scenarioS, (800 : ℚ))) := by
  have h3 : aniPart rowBoth.score_anilist ((3/10) * 1000) =
      Except.ok [(((9 : ℚ) : ℝ), pseudoW ((3/10) * 1000))] := by
    rw [show rowBoth.score_anilist = Val.num 9 from rfl]
    exact aniPart_num 9 (by norm_num)
  rw [rowConsensus_eq_blend (3/10) rowBoth (some 8) 1000
    [(((9 : ℚ) : ℝ), pseudoW ((3/10) * 1000))] rfl rfl h3]
  rw [show nMal rowBoth = 500 from by decide]
  rw [show ((3 : ℚ)/10) * 1000 = 300 from by norm_num]
  unfold blendRow
  rw [show partsOf (some 8) 500 [(((9 : ℚ) : ℝ), pseudoW 300)] =
      [(((8 : ℚ) : ℝ), pseudoW ((500 : ℤ) : ℚ)), (((9 : ℚ) : ℝ), pseudoW 300)] from by
    unfold partsOf
    rw [malPart_some_pos 8 (by norm_num)]
    rfl]
  have hw1 : (0 : ℝ) < pseudoW ((500 : ℤ) : ℚ) := pseudoW_pos (by norm_num)
  have hw2 : (0 : ℝ) < pseudoW 300 := pseudoW_pos (by norm_num)
  rw [if_pos ⟨by simp, by
    simp only [List.map_cons, List.map_nil, List.sum_cons, List.sum_nil, add_zero]
    positivity⟩]
  have hcast : ((500 : ℤ) : ℚ) = (500 : ℚ) := by norm_num
  rw [Except.ok.injEq, Option.some.injEq]
  have hS : blendS [(((8 : ℚ) : ℝ), pseudoW ((500 : ℤ) : ℚ)), (((9 : ℚ) : ℝ), pseudoW 300)] =
      scenarioS := by
    unfold blendS scenarioS
    rw [hcast]
    simp only [List.map_cons, List.map_nil, List.sum_cons, List.sum_nil, add_zero]
    norm_num
  have hN : (((500 : ℤ) : ℚ) : ℚ) + (300 : ℚ) = 800 := by push_cast; norm_num
  rw [hS, hN]

lemma consensus_eval_both :
    compute_consensus_bayesian [rowBoth] Option.none (3/10) =
      Except.ok [(writeCons rowBoth scenarioS 800, scenarioS)] := by
  have hcollect : collectRecs (3/10) [rowBoth] =
      Except.ok [(writeCons rowBoth scenarioS 800, scenarioS, (800 : ℚ))] := by
    unfold collectRecs
    rw [rc_eval_both]
    rfl
  unfold compute_consensus_bayesian
  rw [hcollect]
  show Except.ok (consensusFinish
    [(writeCons rowBoth scenarioS 800, scenarioS, (800 : ℚ))] Option.none) = _
  rw [Except.ok.injEq]
  unfold consensusFinish
  rw [List.map_singleton]
  have hC : consensusC [(writeCons rowBoth scenarioS 800, scenarioS, (800 : ℚ))] =
      scenarioS := by
    unfold consensusC
    simp only [List.map_cons, List.map_nil, List.sum_cons, List.sum_nil, add_zero]
    rw [mul_div_assoc, div_self (by norm_num), mul_one]
  have hM : consensusM [(writeCons rowBoth scenarioS 800, scenarioS, (800 : ℚ))]
      Option.none = 1000 := by
    unfold consensusM consensusNs
    simp only [List.map_cons, List.map_nil]
    rw [show List.insertionSort (· ≤ ·) [pytrunc 800] = [(800 : ℤ)] from by decide]
    norm_num
  rw [hC, hM]
  have : bayesian_scoreR scenarioS ((800 : ℚ) : ℝ) scenarioS 1000 = scenarioS := by
    unfold bayesian_scoreR
    have h8 : (((800 : ℚ) : ℝ)) = (800 : ℝ) := by norm_num
    rw [h8]
    have hd : (800 : ℝ) + 1000 ≠ 0 := by norm_num
    field_simp
    ring
  rw [this]

/-- C1 counterexample: in the spec's consensus scenario the code's blended
consensus_score uses a log-compressed weight for the *secondary* source as
well (`w(n_ani) = log10(1+300)`), so it equals
`(8·log10 501 + 9·log10 301)/(log10 501 + log10 301)` (≈ 8.48), which is
strictly below the claimed `(8·log10 501 + 9·300)/(log10 501 + 300)`
(≈ 8.99): the claimed equation is false. -/
theorem C1_cex :
    rowConsensus (3/10) rowBoth =
      Except.ok (some (writeCons rowBoth scenarioS 800, scenarioS, (800 : ℚ)))
    ∧ scenarioS ≠
      (8 * Real.logb 10 501 + 9 * 300) / (Real.logb 10 501 + 300) := by
  refine ⟨rc_eval_both, ?_⟩
  unfold scenarioS
  rw [pseudoW_500, pseudoW_300]
  have h1l : 2 < Real.logb 10 501 := two_lt_logb (by norm_num)
  have h1u : Real.logb 10 501 < 3 := logb_lt_three (by norm_num) (by norm_num)
  have h2l : 2 < Real.logb 10 301 := two_lt_logb (by norm_num)
  have h2u : Real.logb 10 301 < 3 := logb_lt_three (by norm_num) (by norm_num)
  apply ne_of_lt
  rw [div_lt_div_iff₀ (by linarith) (by linarith)]
  nlinarith [mul_pos (show (0:ℝ) < Real.logb 10 501 by linarith)
    (show (0:ℝ) < 300 - Real.logb 10 301 by linarith)]

/-- C1 (amended): for the merged row with primary (score 8, votes 500) and
secondary (score 9, popularity 1000) under alpha = 0.30, the consensus
engine writes consensus_votes = 800 (= 500 + 0.30·1000) and
consensus_score = (8·log10(1+500) + 9·log10(1+300)) / (log10(501) +
log10(301)) — both sources' blend weights are log-compressed, the
secondary's pseudo-weight 300 entering the vote total but only its
logarithm entering the weighted mean. -/
theorem C1_consensus_scenario :
    compute_consensus_bayesian [rowBoth] Option.none (3/10) =
      Except.ok [(writeCons rowBoth scenarioS 800, scenarioS)]
    ∧ (writeCons rowBoth scenarioS 800).consensus_votes = some 800
    ∧ scenarioS =
      (8 * Real.logb 10 501 + 9 * Real.logb 10 301) /
        (Real.logb 10 501 + Real.logb 10 301) := by
  refine ⟨consensus_eval_both, ?_, ?_⟩
  · show some (pyRound 800) = some 800
    rw [show pyRound 800 = 800 from by decide]
  · unfold scenarioS
    rw [pseudoW_500, pseudoW_300]

/-! ## Claims C6 and C7 -/

lemma getD_map_lt {α β : Type _} (f : α → β) (l : List α) (i : ℕ) (da : α) (db : β)
    (hi : i < l.length) : (l.map f).getD i db = f (l.getD i da) := by
  rw [List.getD_eq_getElem (l.map f) db (by simpa using hi),
    List.getD_eq_getElem l da hi, List.getElem_map]

lemma zipWith4_getD {α β γ δ ε : Type _} (f : α → β → γ → δ → ε) :
    ∀ (as : List α) (bs : List β) (cs : List γ) (ds : List δ) (i : ℕ)
      (da : α) (db : β) (dc : γ) (dd : δ) (de : ε),
      bs.length = as.length → cs.length = as.length → ds.length = as.length →
      i < as.length →
      (zipWith4 f as bs cs ds).getD i de =
        f (as.getD i da) (bs.getD i db) (cs.getD i dc) (ds.getD i dd) := by
  intro as
  induction as with
  | nil =>
    intro bs cs ds i _ _ _ _ _ _ _ _ hi
    exact absurd hi (by simp)
  | cons a as ih =>
    intro bs cs ds i da db dc dd de hb hc hd hi
    cases bs with
    | nil => simp at hb
    | cons b bs =>
      cases cs with
      | nil => simp at hc
      | cons c cs =>
        cases ds with
        | nil => simp at hd
        | cons d ds =>
          cases i with
          | zero => rfl
          | succ i =>
            show (zipWith4 f (a :: as) (b :: bs) (c :: cs) (d :: ds)).getD (i + 1) de = _
            rw [show zipWith4 f (a :: as) (b :: bs) (c :: cs) (d :: ds) =
              f a b c d :: zipWith4 f as bs cs ds from rfl]
            rw [List.getD_cons_succ, List.getD_cons_succ, List.getD_cons_succ,
              List.getD_cons_succ, List.getD_cons_succ]
            exact ih bs cs ds i da db dc dd de (by simpa using hb) (by simpa using hc)
              (by simpa using hd) (by simpa using hi)

/-- C6 counterexample: a merged row with no `members` value, primary
popularity rank 50 and secondary popularity index 999.  The code resolves
p = 50 through the row's own `popularity` key; the claim's resolver (primary
metric, then the *secondary* popularity metric) would give 999 — the
secondary `popularity_anilist` key is never consulted. -/
theorem C6_cex :
    extract_popularity rowPopRank = 50
    ∧ claimPopResolver rowPopRank = 999
    ∧ (50 : ℚ) ≠ 999 :=
  ⟨rfl, rfl, by norm_num⟩

/-- C6 (amended): the per-row popularity `p` is resolved by trying, in
order, the primary `members` count, the primary `popularity` rank, then the
vote count — the first numeric value wins, with fallback 0 (the secondary
`popularity_anilist` is not consulted) — and the recommendation engine's
output score at each eligible index decomposes as the base shrunk score
plus `pop_weight` times the min-max-normalised `log10(1+p)` plus
`recency_weight` times the recency boost. -/
theorem C6_popularity (rows : List Row) (prior : Option ℚ) (pw rw : ℚ) (r : Row)
    (i : ℕ) (hi : i < (eligPairs rows).length) :
    extract_popularity r = (firstNumVal [r.members, r.popularity, r.scored_by]).getD 0
    ∧ (compute_recommendation_scores rows prior pw rw).getD i (defaultRow, 0) =
      (((eligPairs rows).getD i (defaultRow, 0, 0)).1,
        ((((baseScoresOf (eligPairs rows) prior).getD i 0 : ℚ)) : ℝ)
        + (((pw : ℚ) : ℝ) * (norm_range (popLogs (eligPairs rows))).getD i 0
          + ((rw : ℚ) : ℝ) *
            ((((recencyNorm ((eligPairs rows).map fun t => extract_year t.1)).getD i 0 : ℚ)) : ℝ))) := by
  constructor
  · unfold extract_popularity firstNumVal
    cases hm : r.members <;> cases hp : r.popularity <;> cases hs : r.scored_by <;> rfl
  · unfold compute_recommendation_scores
    rw [if_neg (by
      intro hc
      rw [List.isEmpty_iff] at hc
      rw [hc] at hi
      exact absurd hi (by simp))]
    rw [zipWith4_getD _ (eligPairs rows) _ _ _ i (defaultRow, 0, 0) 0 0 0 (defaultRow, 0)
      (baseScoresOf_length _ _)
      (by rw [norm_range_length, popLogs_length])
      (by rw [recencyNorm_length, List.length_map]) hi]

/-- C6 witness: the amended property at a concrete one-row input, index 0. -/
theorem C6_popularity_witness :
    extract_popularity defaultRow =
      (firstNumVal [defaultRow.members, defaultRow.popularity, defaultRow.scored_by]).getD 0
    ∧ (compute_recommendation_scores [rowMalOnly] Option.none (1/5) (1/10)).getD 0
        (defaultRow, 0) =
      (((eligPairs [rowMalOnly]).getD 0 (defaultRow, 0, 0)).1,
        ((((baseScoresOf (eligPairs [rowMalOnly]) Option.none).getD 0 0 : ℚ)) : ℝ)
        + ((((1:ℚ)/5 : ℚ) : ℝ) * (norm_range (popLogs (eligPairs [rowMalOnly]))).getD 0 0
          + (((1:ℚ)/10 : ℚ) : ℝ) *
            ((((recencyNorm ((eligPairs [rowMalOnly]).map fun t => extract_year t.1)).getD 0 0 : ℚ)) : ℝ))) :=
  C6_popularity [rowMalOnly] Option.none (1/5) (1/10) defaultRow 0 (by decide)

lemma iscloseR_self (x : ℝ) : iscloseR x x := by
  unfold iscloseR
  rw [sub_self, abs_zero]
  positivity

/-- C7: a degenerate normalisation pool (empty, singleton, or all-equal
values — the min and max then coincide) yields boost 0.0 for every member,
with no division performed; rows without a parseable year get recency boost
0; rows *with* a parseable year also get recency boost 0 when the parseable
year pool is degenerate (its min and max are `isclose`); and the recency
normalisation of a parseable year in a non-degenerate pool uses the min/max
of the parseable years only. -/
theorem C7_norm_degenerate (vals : List ℝ) (years : List (Option ℤ)) (i : ℕ)
    (hall : ∀ a ∈ vals, ∀ b ∈ vals, a = b) (hi : i < years.length) :
    norm_range vals = vals.map (fun _ => 0)
    ∧ (recencyNorm years).length = years.length
    ∧ (years.getD i Option.none = Option.none → (recencyNorm years).getD i 0 = 0)
    ∧ (∀ y : ℤ, years.getD i Option.none = some y →
        iscloseQ (((parsedYears years).min?).getD 0) (((parsedYears years).max?).getD 0)
          = false →
        (recencyNorm years).getD i 0 =
          (((y : ℤ) : ℚ) - ((parsedYears years).min?).getD 0) /
            (((parsedYears years).max?).getD 0 - ((parsedYears years).min?).getD 0))
    ∧ (∀ y : ℤ, years.getD i Option.none = some y →
        iscloseQ (((parsedYears years).min?).getD 0) (((parsedYears years).max?).getD 0)
          = true →
        (recencyNorm years).getD i 0 = 0) := by
  refine ⟨?_, recencyNorm_length years, ?_, ?_, ?_⟩
  · cases vals with
    | nil => rfl
    | cons v vs =>
      unfold norm_range
      rw [if_neg (by simp)]
      have hmin : (v :: vs).min? = some (vs.foldl min v) := rfl
      have hmax : (v :: vs).max? = some (vs.foldl max v) := rfl
      have hlo : vs.foldl min v ∈ v :: vs := List.min?_mem min_choice hmin
      have hhi : vs.foldl max v ∈ v :: vs := List.max?_mem max_choice hmax
      have heq : vs.foldl min v = vs.foldl max v := hall _ hlo _ hhi
      rw [hmin, hmax, Option.getD_some, Option.getD_some, heq,
        if_pos (iscloseR_self (vs.foldl max v))]
  · intro hy
    unfold recencyNorm
    cases hmin : (parsedYears years).min? with
    | none =>
      cases hmax : (parsedYears years).max? with
      | none => rw [getD_map_lt _ years i Option.none 0 hi]
      | some b => rw [getD_map_lt _ years i Option.none 0 hi]
    | some lo =>
      cases hmax : (parsedYears years).max? with
      | none => rw [getD_map_lt _ years i Option.none 0 hi]
      | some b =>
        rw [getD_map_lt _ years i Option.none 0 hi, hy]
  · intro y hy hclose
    have hymem : ((y : ℤ) : ℚ) ∈ parsedYears years := by
      have h1 : years.getD i Option.none = years[i] := List.getD_eq_getElem years _ hi
      rw [h1] at hy
      have h2 : some y ∈ years := hy ▸ List.getElem_mem hi
      unfold parsedYears
      exact List.mem_map.2 ⟨y, List.mem_filterMap.2 ⟨some y, h2, rfl⟩, rfl⟩
    unfold recencyNorm
    cases hmin : (parsedYears years).min? with
    | none =>
      rw [List.min?_eq_none_iff] at hmin
      rw [hmin] at hymem
      exact absurd hymem (List.not_mem_nil _)
    | some lo =>
      cases hmax : (parsedYears years).max? with
      | none =>
        rw [List.max?_eq_none_iff] at hmax
        rw [hmax] at hymem
        exact absurd hymem (List.not_mem_nil _)
      | some b =>
        rw [hmin, hmax, Option.getD_some, Option.getD_some] at hclose
        rw [getD_map_lt _ years i Option.none 0 hi, hy]
        simp only [Option.getD_some, hclose, Bool.false_eq_true, if_false]
  · intro y hy hclose
    have hymem : ((y : ℤ) : ℚ) ∈ parsedYears years := by
      have h1 : years.getD i Option.none = years[i] := List.getD_eq_getElem years _ hi
      rw [h1] at hy
      have h2 : some y ∈ years := hy ▸ List.getElem_mem hi
      unfold parsedYears
      exact List.mem_map.2 ⟨y, List.mem_filterMap.2 ⟨some y, h2, rfl⟩, rfl⟩
    unfold recencyNorm
    cases hmin : (parsedYears years).min? with
    | none =>
      rw [List.min?_eq_none_iff] at hmin
      rw [hmin] at hymem
      exact absurd hymem (List.not_mem_nil _)
    | some lo =>
      cases hmax : (parsedYears years).max? with
      | none =>
        rw [List.max?_eq_none_iff] at hmax
        rw [hmax] at hymem
        exact absurd hymem (List.not_mem_nil _)
      | some b =>
        rw [hmin, hmax, Option.getD_some, Option.getD_some] at hclose
        rw [getD_map_lt _ years i Option.none 0 hi, hy]
        simp only [hclose, if_true]

/-- C7 witness: an all-equal two-element pool normalises to zeros, on
the year list `[None, 2000, 2010]` the yearless first row gets boost 0,
and on the all-equal year list `[2000, 2000]` a row with that parseable
year also gets boost 0. -/
theorem C7_norm_degenerate_witness :
    norm_range [(5 : ℝ), 5] = [(5 : ℝ), 5].map (fun _ => 0)
    ∧ (recencyNorm [Option.none, some 2000, some 2010]).length =
      ([Option.none, some 2000, some 2010] : List (Option ℤ)).length
    ∧ (([Option.none, some 2000, some 2010] : List (Option ℤ)).getD 0 Option.none =
        Option.none →
      (recencyNorm [Option.none, some 2000, some 2010]).getD 0 0 = 0)
    ∧ (∀ y : ℤ, ([Option.none, some 2000, some 2010] : List (Option ℤ)).getD 0 Option.none
          = some y →
        iscloseQ (((parsedYears [Option.none, some 2000, some 2010]).min?).getD 0)
          (((parsedYears [Option.none, some 2000, some 2010]).max?).getD 0) = false →
        (recencyNorm [Option.none, some 2000, some 2010]).getD 0 0 =
          (((y : ℤ) : ℚ) - ((parsedYears [Option.none, some 2000, some 2010]).min?).getD 0) /
            (((parsedYears [Option.none, some 2000, some 2010]).max?).getD 0 -
              ((parsedYears [Option.none, some 2000, some 2010]).min?).getD 0))
    ∧ (recencyNorm [some 2000, some 2000]).getD 0 0 = 0 :=
  have hA := C7_norm_degenerate [(5 : ℝ), 5] [Option.none, some 2000, some 2010] 0
    (by
      intro a ha b hb
      rw [List.mem_cons, List.mem_singleton] at ha hb
      rcases ha with rfl | rfl <;> rcases hb with h | h <;> rw [h])
    (by decide)
  have hB := C7_norm_degenerate [(5 : ℝ), 5] [some 2000, some 2000] 0
    (by
      intro a ha b hb
      rw [List.mem_cons, List.mem_singleton] at ha hb
      rcases ha with rfl | rfl <;> rcases hb with h | h <;> rw [h])
    (by decide)
  ⟨hA.1, hA.2.1, hA.2.2.1, hA.2.2.2.1, hB.2.2.2.2 2000 (by decide) (by decide)⟩

/-! ## Claim C3: merge lemmas -/

lemma buildIdx_mem : ∀ {anis idx}, buildIdx anis = Except.ok idx →
    ∀ e ∈ idx, e.2 ∈ anis ∧ keyOfVal e.2.mal_id = Except.ok (some e.1) := by
  intro anis
  induction anis with
  | nil =>
    intro idx h e he
    rw [show buildIdx [] = Except.ok [] from rfl, Except.ok.injEq] at h
    subst h
    exact absurd he (List.not_mem_nil _)
  | cons a rest ih =>
    intro idx h e he
    unfold buildIdx at h
    split at h
    · next tl heqT heqK =>
      rw [Except.ok.injEq] at h
      subst h
      rcases ih heqT e he with ⟨h1, h2⟩
      exact ⟨List.mem_cons_of_mem _ h1, h2⟩
    · next tl k heqT heqK =>
      rw [Except.ok.injEq] at h
      subst h
      rcases List.mem_append.1 he with he | he
      · rcases ih heqT e he with ⟨h1, h2⟩
        exact ⟨List.mem_cons_of_mem _ h1, h2⟩
      · rw [List.mem_singleton] at he
        subst he
        exact ⟨List.mem_cons_self _ _, heqK⟩
    · exact Except.noConfusion h

lemma lookupIdx_mem {idx : List (ℤ × Row)} {k : ℤ} {a : Row}
    (h : lookupIdx idx k = some a) : (k, a) ∈ idx := by
  unfold lookupIdx at h
  rcases Option.map_eq_some'.1 h with ⟨e, he, rfl⟩
  have h1 := List.mem_of_find?_eq_some he
  have h2 := List.find?_some he
  rw [beq_iff_eq] at h2
  have : e = (k, e.2) := by
    rw [← h2]
  rw [← this]
  exact h1

lemma pairwise_aid_inj {anis : List Row}
    (h : anis.Pairwise fun a b => a.anilist_id ≠ b.anilist_id) :
    ∀ a ∈ anis, ∀ b ∈ anis, a.anilist_id = b.anilist_id → a = b := by
  induction anis with
  | nil => intro a ha; exact absurd ha (List.not_mem_nil _)
  | cons x xs ih =>
    rw [List.pairwise_cons] at h
    intro a ha b hb heq
    rcases List.mem_cons.1 ha with ha' | ha'
    · rcases List.mem_cons.1 hb with hb' | hb'
      · rw [ha', hb']
      · subst ha'
        exact absurd heq (h.1 b hb')
    · rcases List.mem_cons.1 hb with hb' | hb'
      · subst hb'
        exact absurd heq.symm (h.1 a ha')
      · exact ih h.2 a ha' b hb' heq

lemma phase1_length {idx : List (ℤ × Row)} :
    ∀ {mals p1 used}, phase1 idx mals = Except.ok (p1, used) → p1.length = mals.length := by
  intro mals
  induction mals with
  | nil =>
    intro p1 used h
    rw [show phase1 idx [] = Except.ok ([], []) from rfl, Except.ok.injEq,
      Prod.mk.injEq] at h
    rw [← h.1]
  | cons m ms ih =>
    intro p1 used h
    unfold phase1 at h
    split at h
    · next r u rs us heqS heqP =>
      rw [Except.ok.injEq, Prod.mk.injEq] at h
      rw [← h.1]
      simp [ih heqP]
    · exact Except.noConfusion h

lemma phase2_length (used : List Val) (seen : List (String × Val)) :
    ∀ anis, (phase2 used seen anis).length ≤ anis.length := by
  intro anis
  induction anis with
  | nil => exact le_refl _
  | cons a rest ih =>
    unfold phase2
    split
    · exact le_trans ih (by simp)
    · split
      · exact le_trans ih (by simp)
      · simpa using ih

lemma stepRow_ok {idx : List (ℤ × Row)} {m r' : Row} {u : List Val}
    (h : stepRow idx m = Except.ok (r', u)) :
    (∃ k a, keyOfVal m.mal_id = Except.ok (some k) ∧ lookupIdx idx k = some a ∧
      r' = enrich m a ∧ u = [a.anilist_id])
    ∨ (r' = m ∧ u = []) := by
  unfold stepRow at h
  split at h
  · exact Except.noConfusion h
  · rw [Except.ok.injEq, Prod.mk.injEq] at h
    exact Or.inr ⟨h.1.symm, h.2.symm⟩
  · next k heqK =>
    split at h
    · rw [Except.ok.injEq, Prod.mk.injEq] at h
      exact Or.inr ⟨h.1.symm, h.2.symm⟩
    · next a heqL =>
      rw [Except.ok.injEq, Prod.mk.injEq] at h
      exact Or.inl ⟨k, a, heqK, heqL, h.1.symm, h.2.symm⟩

lemma enrich_aid (m a : Row) : (enrich m a).anilist_id = a.anilist_id := rfl

lemma mkFromAni_aid (a : Row) : (mkFromAni a).anilist_id = a.anilist_id := rfl

lemma phase1_countP {idx : List (ℤ × Row)} {x : Val} (hx : x ≠ Val.none) :
    ∀ {mals p1 used}, phase1 idx mals = Except.ok (p1, used) →
      (∀ m ∈ mals, m.anilist_id = Val.none) →
      p1.countP (fun r => decide (r.anilist_id = x)) = used.count x := by
  intro mals
  induction mals with
  | nil =>
    intro p1 used h _
    rw [show phase1 idx [] = Except.ok ([], []) from rfl, Except.ok.injEq,
      Prod.mk.injEq] at h
    rw [← h.1, ← h.2]
    rfl
  | cons m ms ih =>
    intro p1 used h hclean
    unfold phase1 at h
    split at h
    · next r u rs us heqS heqP =>
      rw [Except.ok.injEq, Prod.mk.injEq] at h
      rw [← h.1, ← h.2]
      rw [List.countP_cons, List.count_append]
      have ihv := ih heqP fun m' hm' => hclean m' (List.mem_cons_of_mem _ hm')
      rcases stepRow_ok heqS with ⟨k, a, _, _, rfl, rfl⟩ | ⟨he1, he2⟩
      · rw [enrich_aid]
        by_cases hax : a.anilist_id = x
        · rw [if_pos (decide_eq_true hax)]
          rw [show ([a.anilist_id].count x) = 1 from by rw [hax]; simp]
          omega
        · rw [if_neg (fun hc => hax (of_decide_eq_true hc))]
          rw [List.count_eq_zero.2 (by
            rw [List.mem_singleton]
            exact fun hc => hax hc.symm)]
          omega
      · rw [he1, he2]
        have hm : m.anilist_id = Val.none := hclean m (List.mem_cons_self _ _)
        rw [hm, if_neg (fun hc => hx (of_decide_eq_true hc).symm)]
        rw [show (([] : List Val).count x) = 0 from rfl]
        omega
    · exact Except.noConfusion h

lemma phase1_used_zero {idx : List (ℤ × Row)} {x : Val} :
    ∀ {ms : List Row} {rs : List Row} {us : List Val},
      phase1 idx ms = Except.ok (rs, us) →
      (∀ m' ∈ ms, ∀ k b, keyOfVal m'.mal_id = Except.ok (some k) →
        lookupIdx idx k = some b → b.anilist_id ≠ x) →
      us.count x = 0 := by
  intro ms
  induction ms with
  | nil =>
    intro rs us h _
    rw [show phase1 idx [] = Except.ok ([], []) from rfl, Except.ok.injEq,
      Prod.mk.injEq] at h
    rw [← h.2]
    rfl
  | cons m ms ih =>
    intro rs us h hno
    unfold phase1 at h
    split at h
    · next r u rs2 us2 heqS heqP =>
      rw [Except.ok.injEq, Prod.mk.injEq] at h
      rw [← h.2, List.count_append]
      have ihz := ih heqP fun m' hm' => hno m' (List.mem_cons_of_mem _ hm')
      rcases stepRow_ok heqS with ⟨k, a, hkey, hlook, he1, he2⟩ | ⟨he1, he2⟩
      · rw [he2]
        have hax : a.anilist_id ≠ x := hno m (List.mem_cons_self _ _) k a hkey hlook
        rw [List.count_eq_zero.2 (by
          rw [List.mem_singleton]
          exact fun hc => hax hc.symm)]
        omega
      · rw [he2]
        rw [show (([] : List Val).count x) = 0 from rfl]
        omega
    · exact Except.noConfusion h

lemma phase1_count_le_one {anis : List Row} {idx : List (ℤ × Row)}
    (hI : buildIdx anis = Except.ok idx)
    (haid : anis.Pairwise fun a b => a.anilist_id ≠ b.anilist_id) {x : Val} :
    ∀ {mals p1 used}, phase1 idx mals = Except.ok (p1, used) →
      (mals.Pairwise fun m1 m2 => ∀ k, rowMalKey m1 = some k → rowMalKey m2 ≠ some k) →
      used.count x ≤ 1 := by
  intro mals
  induction mals with
  | nil =>
    intro p1 used h _
    rw [show phase1 idx [] = Except.ok ([], []) from rfl, Except.ok.injEq,
      Prod.mk.injEq] at h
    rw [← h.2]
    exact Nat.le_of_lt_succ (by simp [List.count_nil])
  | cons m ms ih =>
    intro p1 used h hkeys
    rw [List.pairwise_cons] at hkeys
    obtain ⟨hhead, htail⟩ := hkeys
    unfold phase1 at h
    split at h
    · next r u rs us heqS heqP =>
      rw [Except.ok.injEq, Prod.mk.injEq] at h
      rw [← h.2, List.count_append]
      rcases stepRow_ok heqS with ⟨k, a, hkey, hlook, he1, he2⟩ | ⟨he1, he2⟩
      · rw [he2]
        by_cases hax : a.anilist_id = x
        · have hzero : us.count x = 0 := by
            apply phase1_used_zero heqP
            intro m' hm' k' b hk' hl' hbx
            have hbmem := buildIdx_mem hI _ (lookupIdx_mem hl')
            have hamem := buildIdx_mem hI _ (lookupIdx_mem hlook)
            have hba : b = a := pairwise_aid_inj haid b hbmem.1 a hamem.1
              (by rw [hbx, hax])
            have e1 : keyOfVal a.mal_id = Except.ok (some k') := by
              rw [← hba]
              exact hbmem.2
            have e2 : keyOfVal a.mal_id = Except.ok (some k) := hamem.2
            have hkk : k' = k := by
              rw [e1, Except.ok.injEq, Option.some.injEq] at e2
              exact e2
            have hm1 : rowMalKey m = some k := by
              unfold rowMalKey
              rw [hkey]
            have hm2 : rowMalKey m' = some k := by
              unfold rowMalKey
              rw [hk', hkk]
            exact hhead m' hm' k hm1 hm2
          rw [hzero]
          rw [show ([a.anilist_id].count x) = 1 from by rw [hax]; simp]
        · rw [List.count_eq_zero.2 (by
            rw [List.mem_singleton]
            exact fun hc => hax hc.symm)]
          have := ih heqP htail
          omega
      · rw [he2]
        rw [show (([] : List Val).count x) = 0 from rfl]
        have := ih heqP htail
        omega
    · exact Except.noConfusion h

lemma phase2_countP_zero {x : Val} (used : List Val) (seen : List (String × Val)) :
    ∀ {anis : List Row}, (∀ b ∈ anis, b.anilist_id ≠ x) →
      (phase2 used seen anis).countP (fun r => decide (r.anilist_id = x)) = 0 := by
  intro anis
  induction anis with
  | nil => intro _; rfl
  | cons b rest ih =>
    intro hno
    unfold phase2
    split
    · exact ih fun c hc => hno c (List.mem_cons_of_mem _ hc)
    · split
      · exact ih fun c hc => hno c (List.mem_cons_of_mem _ hc)
      · rw [List.countP_cons]
        rw [ih fun c hc => hno c (List.mem_cons_of_mem _ hc)]
        rw [if_neg (fun hc => hno b (List.mem_cons_self _ _)
          (by rw [← mkFromAni_aid b]; exact of_decide_eq_true hc))]

lemma phase2_countP (used : List Val) (seen : List (String × Val)) {a : Row} :
    ∀ {anis : List Row}, anis.Pairwise (fun p q => p.anilist_id ≠ q.anilist_id) →
      a ∈ anis →
      (phase2 used seen anis).countP (fun r => decide (r.anilist_id = a.anilist_id)) =
        if a.anilist_id ∈ used then 0 else if rowKey a ∈ seen then 0 else 1 := by
  intro anis
  induction anis with
  | nil => intro _ ha; exact absurd ha (List.not_mem_nil _)
  | cons b rest ih =>
    intro hpw ha
    rw [List.pairwise_cons] at hpw
    obtain ⟨hb, hrest⟩ := hpw
    rcases List.mem_cons.1 ha with ha' | ha'
    · subst ha'
      have hzero := phase2_countP_zero used seen
        (fun c hc => (hb c hc).symm : ∀ c ∈ rest, c.anilist_id ≠ a.anilist_id)
      unfold phase2
      split
      · exact hzero
      · split
        · exact hzero
        · rw [List.countP_cons, hzero, decide_eq_true (mkFromAni_aid a),
            if_pos rfl]
    · have hba : b.anilist_id ≠ a.anilist_id := hb a ha'
      unfold phase2
      split
      · exact ih hrest ha'
      · split
        · exact ih hrest ha'
        · rw [List.countP_cons, ih hrest ha']
          rw [decide_eq_false
            (fun hc => hba (by rw [← mkFromAni_aid b]; exact hc))]
          rw [if_neg Bool.false_ne_true, Nat.add_zero]

/-- C3 counterexample: two primary rows sharing `mal_id = 5` and one
secondary row cross-referencing that id.  The secondary row enriches *both*
primary rows — it is reflected in two output rows (both carry its
`anilist_id` 7), so "every secondary row is reflected in exactly one output
row" is false as stated. -/
theorem C3_cex :
    (merge_mal_anilist
        [({ mal_id := Val.num 5 } : Row), { mal_id := Val.num 5 }]
        [({ mal_id := Val.num 5, anilist_id := Val.num 7 } : Row)]).toOption.map
      (fun l => (l.countP fun r => decide (r.anilist_id = Val.num 7), l.length)) =
      some (2, 2) := by
  decide

/-- C3 (amended): for every successful merge the output length is at most
`len(primary) + len(secondary)`, unconditionally.  When in addition the
secondary rows carry pairwise-distinct non-null `anilist_id`s, and the
primary rows carry no `anilist_id` and pairwise-distinct integer merge
keys, every secondary row is reflected in at most one output row
(identified by its `anilist_id`), and a secondary row reflected in no
output row is a detected duplicate: its normalised (title, year) key
already occurs among the primary-pass rows.  (Without the distinctness
hypotheses a secondary row can enrich several primary rows, or be silently
dropped through an `anilist_id` collision in `used_ani`.) -/
theorem C3_merge_conservation (mals anis out : List Row)
    (hsucc : merge_mal_anilist mals anis = Except.ok out) :
    out.length ≤ mals.length + anis.length
    ∧ (anis.Pairwise (fun a b => a.anilist_id ≠ b.anilist_id) →
      (∀ a ∈ anis, a.anilist_id ≠ Val.none) →
      (∀ m ∈ mals, m.anilist_id = Val.none) →
      mals.Pairwise (fun m1 m2 => ∀ k, rowMalKey m1 = some k → rowMalKey m2 ≠ some k) →
      ∀ a ∈ anis,
        out.countP (fun r => decide (r.anilist_id = a.anilist_id)) ≤ 1
        ∧ (out.countP (fun r => decide (r.anilist_id = a.anilist_id)) = 0 →
            rowKey a ∈ (out.take mals.length).map rowKey)) := by
  unfold merge_mal_anilist at hsucc
  split at hsucc
  · exact Except.noConfusion hsucc
  · next idx heqI =>
    split at hsucc
    · exact Except.noConfusion hsucc
    · next merged used heqP =>
      rw [Except.ok.injEq] at hsucc
      subst hsucc
      have hlen1 := phase1_length heqP
      constructor
      · rw [List.length_append]
        have h2 := phase2_length used (merged.map rowKey) anis
        omega
      · intro haid hnn hmclean hkeys a ha
        have htake : (merged ++ phase2 used (merged.map rowKey) anis).take mals.length
            = merged := by
          rw [← hlen1]
          exact List.take_left _ _
        rw [htake, List.countP_append]
        have hc1 : merged.countP (fun r => decide (r.anilist_id = a.anilist_id)) =
            used.count a.anilist_id :=
          phase1_countP (hnn a ha) heqP hmclean
        have hle : used.count a.anilist_id ≤ 1 :=
          phase1_count_le_one heqI haid heqP hkeys
        have hc2 := phase2_countP used (merged.map rowKey) haid ha
        rw [hc1, hc2]
        by_cases hmem : a.anilist_id ∈ used
        · rw [if_pos hmem]
          have hpos : 0 < used.count a.anilist_id := List.count_pos_iff.2 hmem
          exact ⟨by omega, fun h0 => absurd h0 (by omega)⟩
        · rw [if_neg hmem]
          have h0 : used.count a.anilist_id = 0 := List.count_eq_zero.2 hmem
          by_cases hseen : rowKey a ∈ merged.map rowKey
          · rw [if_pos hseen]
            exact ⟨by omega, fun _ => hseen⟩
          · rw [if_neg hseen]
            exact ⟨by omega, fun hcz => absurd hcz (by omega)⟩

/-- C3 witness: the unconditional length bound on the duplicate-key merge
of the counterexample (two primary rows sharing `mal_id` 5, one secondary
row enriching both), and the full reflection property on a concrete
distinct-key merge — no primary rows, one secondary row appended as a new
output row. -/
theorem C3_merge_conservation_witness :
    ([enrich ({ mal_id := Val.num 5 } : Row)
        ({ mal_id := Val.num 5, anilist_id := Val.num 7 } : Row),
      enrich ({ mal_id := Val.num 5 } : Row)
        ({ mal_id := Val.num 5, anilist_id := Val.num 7 } : Row)] : List Row).length ≤
      ([({ mal_id := Val.num 5 } : Row), { mal_id := Val.num 5 }] : List Row).length +
        ([({ mal_id := Val.num 5, anilist_id := Val.num 7 } : Row)] : List Row).length
    ∧ ∀ a ∈ [aniW2],
        (([mkFromAni aniW2] : List Row).countP
          fun r => decide (r.anilist_id = a.anilist_id)) ≤ 1
        ∧ ((([mkFromAni aniW2] : List Row).countP
            fun r => decide (r.anilist_id = a.anilist_id)) = 0 →
            rowKey a ∈ (([mkFromAni aniW2] : List Row).take
              ([] : List Row).length).map rowKey) :=
  ⟨(C3_merge_conservation
      [({ mal_id := Val.num 5 } : Row), { mal_id := Val.num 5 }]
      [({ mal_id := Val.num 5, anilist_id := Val.num 7 } : Row)]
      [enrich ({ mal_id := Val.num 5 } : Row)
        ({ mal_id := Val.num 5, anilist_id := Val.num 7 } : Row),
       enrich ({ mal_id := Val.num 5 } : Row)
        ({ mal_id := Val.num 5, anilist_id := Val.num 7 } : Row)]
      (by rfl)).1,
   (C3_merge_conservation [] [aniW2] [mkFromAni aniW2] (by rfl)).2
     (by decide) (by decide) (by decide) (by simp)⟩

end AnimeAnalyst
